import Mathlib

/-!
Verification of the font-synthesis pipeline of the `icon` crate.

The Rust sources are embedded shallowly:

* `f64` values are modelled as exact rationals (`ℚ`); the pipeline performs
  only field arithmetic and comparisons, which the rational model reproduces
  exactly (IEEE rounding is outside the model, as are the non-finite values
  `inf`/`NaN`, which cannot arise from the finite literals modelled here).
* machine integers (`u16` counters, with `wrapping_add`) are modelled as `Nat`
  with explicit `% 65536`;
* panics (`panic!`, `expect`, `assert!`) are modelled as `Except String`
  results carrying the panic message;
* external crates (`usvg` parsing, `kurbo`'s `CubicBez::to_quads` and
  `Shape::bounding_box`, `write_fonts` builders) are passed in as explicit
  function parameters (`FontDeps`), since their code is not part of this
  repository; everything written in the repository itself is embedded.
-/

namespace IconFont

/- Batteries marks the `Rat` field operations `@[irreducible]`; restoring
default reducibility lets concrete rational computations below be settled
by `decide`. -/
attribute [local semireducible] Rat.add Rat.mul Rat.sub Rat.inv Rat.ofScientific

instance instDecEqExcept {ε α : Type} [DecidableEq ε] [DecidableEq α] :
    DecidableEq (Except ε α) := fun x y =>
  match x, y with
  | Except.ok a, Except.ok b =>
    if h : a = b then isTrue (by rw [h]) else isFalse (by simp [h])
  | Except.error a, Except.error b =>
    if h : a = b then isTrue (by rw [h]) else isFalse (by simp [h])
  | Except.ok _, Except.error _ => isFalse (by simp)
  | Except.error _, Except.ok _ => isFalse (by simp)

/-! ## Data model (src/model, src/config/parser.rs)

`Collection { name: String, local: bool }` and
`PackIcon { enum_variant: String, icon: String, order: usize }`
(the `PackIcon` field set is fixed by `src/config/parser.rs`, which
constructs it, and by the uses in `src/generator/font/ttf.rs`).
The Rust field `local` is a Lean keyword and is embedded as `isLocal`. -/

structure Collection where
  name : String
  isLocal : Bool
deriving DecidableEq

structure PackIcon where
  enum_variant : String
  icon : String
  order : Nat
deriving DecidableEq

/-- `BTreeMap<Collection, Vec<PackIcon>>`, embedded as its iteration
sequence (key/value pairs in ascending key order).  The `BTreeMap`
invariant that matters below is that keys are pairwise distinct. -/
abbrev GlyphMap := List (Collection × List PackIcon)

/-- Keys of the map are pairwise distinct (holds for every `BTreeMap`). -/
def validMap (g : GlyphMap) : Prop := (g.map Prod.fst).Nodup

instance (g : GlyphMap) : Decidable (validMap g) :=
  inferInstanceAs (Decidable ((g.map Prod.fst).Nodup))

/-- All glyphs of the map, in bucket-iteration order. -/
def flatten (g : GlyphMap) : List PackIcon := g.flatMap Prod.snd

/-! ## Geometry (kurbo types, f64 as ℚ) -/

structure Point where
  x : ℚ
  y : ℚ
deriving DecidableEq

/-- kurbo `PathEl`. -/
inductive PathEl where
  | MoveTo (p : Point)
  | LineTo (p : Point)
  | QuadTo (c p : Point)
  | CurveTo (c1 c2 p : Point)
  | ClosePath
deriving DecidableEq

/-- kurbo `Rect { x0, y0, x1, y1 }`. -/
structure Rect where
  x0 : ℚ
  y0 : ℚ
  x1 : ℚ
  y1 : ℚ
deriving DecidableEq

def Rect.width (r : Rect) : ℚ := r.x1 - r.x0

def Rect.height (r : Rect) : ℚ := r.y1 - r.y0

/-- kurbo `Affine([a, b, c, d, e, f])`:
`(x, y) ↦ (a*x + c*y + e, b*x + d*y + f)`. -/
structure Affine where
  a : ℚ
  b : ℚ
  c : ℚ
  d : ℚ
  e : ℚ
  f : ℚ
deriving DecidableEq

def Affine.apply (t : Affine) (p : Point) : Point :=
  ⟨t.a * p.x + t.c * p.y + t.e, t.b * p.x + t.d * p.y + t.f⟩

def Affine.translate (v : Point) : Affine := ⟨1, 0, 0, 1, v.x, v.y⟩

def Affine.then_scale_non_uniform (t : Affine) (sx sy : ℚ) : Affine :=
  ⟨t.a * sx, t.b * sy, t.c * sx, t.d * sy, t.e * sx, t.f * sy⟩

def Affine.then_translate (t : Affine) (v : Point) : Affine :=
  ⟨t.a, t.b, t.c, t.d, t.e + v.x, t.f + v.y⟩

def PathEl.mapPoints (f : Point → Point) : PathEl → PathEl
  | .MoveTo p => .MoveTo (f p)
  | .LineTo p => .LineTo (f p)
  | .QuadTo c p => .QuadTo (f c) (f p)
  | .CurveTo c1 c2 p => .CurveTo (f c1) (f c2) (f p)
  | .ClosePath => .ClosePath

/-- kurbo `BezPath::apply_affine`. -/
def applyAffine (t : Affine) (els : List PathEl) : List PathEl :=
  els.map (PathEl.mapPoints t.apply)

def PathEl.isCubic : PathEl → Bool
  | .CurveTo _ _ _ => true
  | _ => false

/-- The control points appearing textually in a path element. -/
def PathEl.points : PathEl → List Point
  | .MoveTo p => [p]
  | .LineTo p => [p]
  | .QuadTo c p => [c, p]
  | .CurveTo c1 c2 p => [c1, c2, p]
  | .ClosePath => []

/-- Bounding box of the control points of a path (`Rect::ZERO` for an empty
path).  For paths built from `MoveTo`/`LineTo`/`ClosePath` only this agrees
exactly with kurbo `Shape::bounding_box`; it is used below only on such
paths (curve extrema are irrational in general and live in the external
kurbo crate, which is passed as a parameter where it matters). -/
def pointsBBox (els : List PathEl) : Rect :=
  match els.flatMap PathEl.points with
  | [] => ⟨0, 0, 0, 0⟩
  | p :: ps =>
    ps.foldl (fun r q => ⟨min r.x0 q.x, min r.y0 q.y, max r.x1 q.x, max r.y1 q.y⟩)
      ⟨p.x, p.y, p.x, p.y⟩

/-! ## String utilities (Rust `str` operations, embedded over `List Char`) -/

/-- Rust `str::trim` (for the ASCII whitespace occurring in this crate's
inputs, `Char.isWhitespace` and Rust `char::is_whitespace` agree). -/
def rustTrim (s : String) : String :=
  ⟨((s.data.dropWhile Char.isWhitespace).reverse.dropWhile Char.isWhitespace).reverse⟩

/-- Rust `str::starts_with`. -/
def strStarts (s pat : String) : Bool := pat.data.isPrefixOf s.data

/-- Whether `needle` occurs as a contiguous substring of `hay`
(Rust `str::contains` for string patterns). -/
def containsSubChars (needle : List Char) : List Char → Bool
  | [] => needle.isEmpty
  | c :: rest => needle.isPrefixOf (c :: rest) || containsSubChars needle rest

def containsSub (hay needle : String) : Bool := containsSubChars needle.data hay.data

/-- Rust `str::split_once(pat)`, keeping only the part after the first
occurrence of `pat` (the code discards the first component). -/
def splitOncePost (pat : List Char) : List Char → Option (List Char)
  | [] => if pat.isEmpty then some [] else none
  | c :: rest =>
    if pat.isPrefixOf (c :: rest) then some ((c :: rest).drop pat.length)
    else splitOncePost pat rest

/-- Accumulate a run of ASCII digits: value, number of digits, rest. -/
def takeDigits (acc cnt : Nat) : List Char → Nat × Nat × List Char
  | [] => (acc, cnt, [])
  | c :: rest =>
    if c.isDigit then takeDigits (acc * 10 + (c.toNat - 48)) (cnt + 1) rest
    else (acc, cnt, c :: rest)

/-- Rust `str::parse::<f64>()` restricted to finite decimal/scientific
literals, with the value read exactly into `ℚ` (`f64` would round to the
nearest double); the non-finite spellings `inf`/`infinity`/`nan`, which
Rust's parser also accepts, have no rational value and are handled by
the full model `parseFloat64` below. -/
def parseFloatQ (s : List Char) : Option ℚ :=
  let sign : ℚ × List Char :=
    match s with
    | '-' :: r => (-1, r)
    | '+' :: r => (1, r)
    | r => (1, r)
  let ip := takeDigits 0 0 sign.2
  let frac : Nat × Nat × List Char :=
    match ip.2.2 with
    | '.' :: r => takeDigits 0 0 r
    | r => (0, 0, r)
  if ip.2.1 + frac.2.1 = 0 then none
  else
    let mant : ℚ := sign.1 * ((ip.1 : ℚ) + (frac.1 : ℚ) / (10 : ℚ) ^ frac.2.1)
    match frac.2.2 with
    | [] => some mant
    | 'e' :: r =>
      match
        (match r with
         | '-' :: rr => ((-1 : ℤ), rr)
         | '+' :: rr => ((1 : ℤ), rr)
         | rr => ((1 : ℤ), rr)) with
      | (es, r1) =>
        let ev := takeDigits 0 0 r1
        if ev.2.1 = 0 ∨ ¬ ev.2.2.isEmpty then none
        else some (mant * (10 : ℚ) ^ (es * (ev.1 : ℤ)))
    | 'E' :: r =>
      match
        (match r with
         | '-' :: rr => ((-1 : ℤ), rr)
         | '+' :: rr => ((1 : ℤ), rr)
         | rr => ((1 : ℤ), rr)) with
      | (es, r1) =>
        let ev := takeDigits 0 0 r1
        if ev.2.1 = 0 ∨ ¬ ev.2.2.isEmpty then none
        else some (mant * (10 : ℚ) ^ (es * (ev.1 : ℤ)))
    | _ => none

/-- Rust `str::split` with a separator predicate: the pieces between
separator characters, empty pieces included. -/
def splitBySep (p : Char → Bool) : List Char → List (List Char)
  | [] => [[]]
  | c :: rest =>
    let r := splitBySep p rest
    if p c then [] :: r
    else
      match r with
      | h :: t => (c :: h) :: t
      | [] => [[c]]

/-! ## src/generator/font/svg.rs -/

/-- `wrap_svg_if_needed` (src/generator/font/svg.rs:30). -/
def wrap_svg_if_needed (svg_or_d : String) : String :=
  let trimmed := rustTrim svg_or_d
  if ¬ trimmed.data.contains '<' then
    "<svg xmlns=\"http://www.w3.org/2000/svg\" viewBox=\"0 0 24 24\"><path d=\""
      ++ trimmed ++ "\"/></svg>"
  else
    let svg_formats := strStarts trimmed "<svg" || strStarts trimmed "<?xml"
      || strStarts trimmed "<!DOCTYPE"
    if svg_formats then svg_or_d
    else
      "<svg xmlns=\"http://www.w3.org/2000/svg\" viewBox=\"0 0 24 24\">"
        ++ svg_or_d ++ "</svg>"

/-- The numeric values parsed out of a located `viewBox` attribute: the
attribute-locating and number-splitting part of `extract_view_box`
(src/generator/font/svg.rs:258-270).  Returns the successfully parsed
numbers, in order.  Indices are character positions; the Rust code uses
byte positions, but they are only used to slice at the quote character
found, which yields the same slice. -/
def viewBoxValues (svg : String) : Option (List ℚ) := do
  let rest ← splitOncePost "viewBox=".data svg.data
  let rest := rest.dropWhile Char.isWhitespace
  let start ← rest.head?
  -- 34 = '"' and 39 = a single quote
  if start.toNat ≠ 34 ∧ start.toNat ≠ 39 then none
  else do
    let idx ← (rest.drop 1).findIdx? (· = start)
    let content := (rest.drop 1).take idx
    some (((splitBySep (fun c => c.isWhitespace || c = ',') content).filter
      (fun s => ¬ s.isEmpty)).filterMap parseFloatQ)

/-- `extract_view_box` (src/generator/font/svg.rs:258), over the
finite-literal number model (its divergence from `extract_view_box64`
below is confined to non-finite literals: `parseFloatQ` drops them, so a
`viewBox` holding one yields `none` here where the program yields `Some`
of a rect with a non-finite dimension — which the `filter` in
`map_svg_to_em_space` then sends to the same no-view-box branch, since
IEEE `NaN > 1e-6` is false and an infinite dimension fails no guard that
a missing box does not also fail). -/
def extract_view_box (svg : String) : Option Rect := do
  let values ← viewBoxValues svg
  match values with
  | x0 :: y0 :: w :: h :: _ =>
    if w ≤ 0 ∨ h ≤ 0 then none
    else some ⟨x0, y0, x0 + w, y0 + h⟩
  | _ => none

/-! ### The IEEE-faithful number model for `extract_view_box`

Rust's `str::parse::<f64>()` also accepts the non-finite spellings
`inf`, `infinity` and `nan` (any letter case, optional sign), and the
guard `w <= 0.0 || h <= 0.0` compares them with IEEE semantics (every
comparison with NaN is false).  `F64` and `parseFloat64` model exactly
that; finite literals are kept exact as rationals. -/

/-- An `f64` as the view-box parser distinguishes it: a finite value
(kept exact as a rational), `NaN`, or a signed infinity. -/
inductive F64 where
  | finite (q : ℚ)
  | nan
  | inf
  | neginf
deriving DecidableEq

/-- IEEE `<=`: false whenever either side is NaN. -/
def F64.le : F64 → F64 → Bool
  | F64.nan, _ => false
  | _, F64.nan => false
  | F64.neginf, _ => true
  | F64.finite _, F64.neginf => false
  | F64.inf, F64.neginf => false
  | F64.finite a, F64.finite b => decide (a ≤ b)
  | F64.finite _, F64.inf => true
  | F64.inf, F64.finite _ => false
  | F64.inf, F64.inf => true

/-- IEEE `<`: false whenever either side is NaN. -/
def F64.lt : F64 → F64 → Bool
  | F64.nan, _ => false
  | _, F64.nan => false
  | F64.neginf, F64.neginf => false
  | F64.neginf, _ => true
  | F64.finite _, F64.neginf => false
  | F64.inf, _ => false
  | F64.finite a, F64.finite b => decide (a < b)
  | F64.finite _, F64.inf => true

/-- IEEE addition on the values the parser can produce (finite addition
kept exact). -/
def F64.add : F64 → F64 → F64
  | F64.nan, _ => F64.nan
  | _, F64.nan => F64.nan
  | F64.inf, F64.neginf => F64.nan
  | F64.neginf, F64.inf => F64.nan
  | F64.inf, _ => F64.inf
  | _, F64.inf => F64.inf
  | F64.neginf, _ => F64.neginf
  | _, F64.neginf => F64.neginf
  | F64.finite a, F64.finite b => F64.finite (a + b)

/-- IEEE subtraction (finite subtraction kept exact). -/
def F64.sub : F64 → F64 → F64
  | F64.nan, _ => F64.nan
  | _, F64.nan => F64.nan
  | F64.inf, F64.inf => F64.nan
  | F64.neginf, F64.neginf => F64.nan
  | F64.inf, _ => F64.inf
  | _, F64.inf => F64.neginf
  | F64.neginf, _ => F64.neginf
  | _, F64.neginf => F64.inf
  | F64.finite a, F64.finite b => F64.finite (a - b)

/-- kurbo `Rect` over IEEE values, as `extract_view_box` constructs it. -/
structure RectF where
  x0 : F64
  y0 : F64
  x1 : F64
  y1 : F64
deriving DecidableEq

def RectF.width (r : RectF) : F64 := r.x1.sub r.x0

def RectF.height (r : RectF) : F64 := r.y1.sub r.y0

/-- ASCII lower-casing, as in Rust's case-insensitive comparison of the
special float spellings. -/
def asciiLower (c : Char) : Char :=
  if 'A' ≤ c ∧ c ≤ 'Z' then Char.ofNat (c.toNat + 32) else c

/-- Rust `str::parse::<f64>()` with the IEEE special spellings: an
optional sign followed by a case-insensitive `inf`, `infinity` or `nan`
parses to the corresponding special value; otherwise the finite grammar
of `parseFloatQ` applies, with the value kept exact (the rounding of an
in-range finite literal to the nearest double, and the overflow of a
finite literal beyond `f64` range to an infinity, are the remaining
exact-rational idealization). -/
def parseFloat64 (s : List Char) : Option F64 :=
  let body := match s with
    | '-' :: r => r
    | '+' :: r => r
    | r => r
  let neg := match s with
    | '-' :: _ => true
    | _ => false
  let low := body.map asciiLower
  if low = "inf".data ∨ low = "infinity".data then
    some (if neg then F64.neginf else F64.inf)
  else if low = "nan".data then some F64.nan
  else (parseFloatQ s).map F64.finite

/-- `viewBoxValues` over the IEEE-faithful number parser: identical
attribute location and number splitting, with
`filter_map(|s| s.parse::<f64>().ok())` now accepting the non-finite
spellings. -/
def viewBoxValues64 (svg : String) : Option (List F64) := do
  let rest ← splitOncePost "viewBox=".data svg.data
  let rest := rest.dropWhile Char.isWhitespace
  let start ← rest.head?
  if start.toNat ≠ 34 ∧ start.toNat ≠ 39 then none
  else do
    let idx ← (rest.drop 1).findIdx? (· = start)
    let content := (rest.drop 1).take idx
    some (((splitBySep (fun c => c.isWhitespace || c = ',') content).filter
      (fun s => ¬ s.isEmpty)).filterMap parseFloat64)

/-- `extract_view_box` (src/generator/font/svg.rs:258) over the
IEEE-faithful number model: `w <= 0.0 || h <= 0.0` is the IEEE
comparison, which is false when `w` or `h` is NaN. -/
def extract_view_box64 (svg : String) : Option RectF := do
  let values ← viewBoxValues64 svg
  match values with
  | x0 :: y0 :: w :: h :: _ =>
    if F64.le w (F64.finite 0) || F64.le h (F64.finite 0) then none
    else some ⟨x0, y0, F64.add x0 w, F64.add y0 h⟩
  | _ => none

/-- Recursive worker for `bezpath_with_quadratics`
(src/generator/font/svg.rs:172), carrying `subpath_start`,
`current_point` and `current_point_set`.  `toQuads cp c1 c2 p` stands for
kurbo's `CubicBez::new(cp, c1, c2, p).to_quads(0.1)`, yielding the
`(q.p1, q.p2)` pairs of each produced quadratic (external kurbo code).
Failed `assert!`s become `Except.error` with the assertion message. -/
def bwqGo (toQuads : Point → Point → Point → Point → List (Point × Point)) :
    List PathEl → Point → Point → Bool → Except String (List PathEl)
  | [], _, _, _ => Except.ok []
  | PathEl.MoveTo p :: rest, _, _, _ =>
    (bwqGo toQuads rest p p true).map (PathEl.MoveTo p :: ·)
  | PathEl.LineTo p :: rest, s, _, set =>
    if set then (bwqGo toQuads rest s p set).map (PathEl.LineTo p :: ·)
    else Except.error "LineTo before MoveTo in input path"
  | PathEl.QuadTo c p :: rest, s, _, set =>
    if set then (bwqGo toQuads rest s p set).map (PathEl.QuadTo c p :: ·)
    else Except.error "QuadTo before MoveTo in input path"
  | PathEl.CurveTo c1 c2 p :: rest, s, cp, set =>
    if set then
      let qs := toQuads cp c1 c2 p
      let cp' := match qs.getLast? with
        | none => cp
        | some q => q.2
      (bwqGo toQuads rest s cp' set).map
        (fun out => qs.map (fun q => PathEl.QuadTo q.1 q.2) ++ out)
    else Except.error "CurveTo before MoveTo in input path"
  | PathEl.ClosePath :: rest, s, _, set =>
    (bwqGo toQuads rest s s set).map (PathEl.ClosePath :: ·)

/-- `bezpath_with_quadratics` (src/generator/font/svg.rs:172); both state
points start at `Point::ZERO` with `current_point_set = false`. -/
def bezpath_with_quadratics
    (toQuads : Point → Point → Point → Point → List (Point × Point))
    (path : List PathEl) : Except String (List PathEl) :=
  bwqGo toQuads path ⟨0, 0⟩ ⟨0, 0⟩ false

/-- `ParsedSvg` (src/generator/font/svg.rs:151). -/
structure ParsedSvg where
  outline : List PathEl
  view_box : Option Rect
deriving DecidableEq

/-- `MIN_DIM = 1e-6` (the rational value; the f64 literal rounds to the
nearest double, which does not affect any comparison made here). -/
def MIN_DIM : ℚ := 1 / 1000000

/-- `map_svg_to_em_space` (src/generator/font/svg.rs:216).
`bounding_box` stands for kurbo's `Shape::bounding_box` (external code);
`ℚ` has no non-finite values, so `scale.is_finite()` always holds in the
model and only the `scale > MIN_DIM` half of the second assertion is
represented. -/
def map_svg_to_em_space (bounding_box : List PathEl → Rect)
    (parsed_svg : ParsedSvg) (units_per_em : Nat) (max_width max_height : ℚ) :
    Except String ParsedSvg :=
  let svg_bbox := bounding_box parsed_svg.outline
  let svg_w := svg_bbox.width
  let svg_h := svg_bbox.height
  if ¬ (svg_w > MIN_DIM ∧ svg_h > MIN_DIM) then
    Except.error "SVG dimensions are too small"
  else
    match parsed_svg.view_box.filter
        (fun r => decide (r.width > MIN_DIM ∧ r.height > MIN_DIM)) with
    | some vb =>
      let scale := (units_per_em : ℚ) / vb.height
      Except.ok { parsed_svg with
        outline := applyAffine
          (((Affine.translate ⟨-vb.x0, -vb.y0⟩).then_scale_non_uniform scale (-scale)).then_translate
            ⟨0, (units_per_em : ℚ)⟩)
          parsed_svg.outline }
    | none =>
      let scale := min (max_width / svg_w) (max_height / svg_h)
      if ¬ (scale > MIN_DIM) then Except.error "cannot scale to target box"
      else
        Except.ok { parsed_svg with
          outline := applyAffine
            (((Affine.translate ⟨-svg_bbox.x0, -svg_bbox.y0⟩).then_scale_non_uniform scale
              (-scale)).then_translate ⟨0, scale * svg_h⟩)
            parsed_svg.outline }

/-! ## src/utils/glyphs.rs -/

/-- The `(pack.order, collection, index)` triples pushed by
`glyphs_in_order` before sorting (src/utils/glyphs.rs:10-14): bucket
iteration order, each bucket enumerated. -/
def entriesTriples (g : GlyphMap) : List (Nat × Collection × Nat) :=
  g.flatMap (fun cp => cp.2.enum.map (fun ip => (ip.2.order, cp.1, ip.1)))

/-- The sort-key comparison of `sort_by_key(|(order, _, _)| *order)`. -/
def leOrder (a b : Nat × Collection × Nat) : Prop := a.1 ≤ b.1

instance : DecidableRel leOrder := fun a b => inferInstanceAs (Decidable (a.1 ≤ b.1))

instance : IsTrans (Nat × Collection × Nat) leOrder := ⟨fun _ _ _ => Nat.le_trans⟩

instance : IsTotal (Nat × Collection × Nat) leOrder := ⟨fun a b => Nat.le_total a.1 b.1⟩

/-- `glyphs_in_order` (src/utils/glyphs.rs:5).  Rust's `sort_by_key` is the
stable sort by the key; `List.insertionSort` with this total, transitive
comparison is also a stable sort by the key, hence computes the same
function (stable sorts by a given key are unique). -/
def glyphs_in_order (glyphs : GlyphMap) : List (Collection × Nat) :=
  ((entriesTriples glyphs).insertionSort leOrder).map (fun t => (t.2.1, t.2.2))

/-! ## src/generator/font/ttf.rs -/

/-- `make_postscript_name` (src/generator/font/ttf.rs:27). -/
def make_postscript_name (base : String) : String :=
  ⟨base.data.map (fun c =>
    if ('A' ≤ c ∧ c ≤ 'Z') ∨ ('a' ≤ c ∧ c ≤ 'z') ∨ ('0' ≤ c ∧ c ≤ '9') then c
    else '-')⟩

/-- write_fonts `SimpleGlyph` as far as the code touches it: the outline
it was built from and the two bounding-box minima the code overwrites. -/
structure SimpleGlyphRec where
  outline : List PathEl
  x_min : ℤ
  y_min : ℤ
deriving DecidableEq

/-- write_fonts `Glyph` (only `Empty` and simple glyphs are used). -/
inductive Glyph where
  | Empty
  | Simple (sg : SimpleGlyphRec)
deriving DecidableEq

inductive LocaFormat where
  | Short
  | Long
deriving DecidableEq

/-! ### The binary font tables, as the field values the code sets
(serialization to bytes is write_fonts code; every field below is the
exact value `generate_font_bytes` passes in, fields left at
`..Default::default()` omitted). -/

structure Head where
  font_revision : ℚ
  flags : Nat
  units_per_em : Nat
  x_min : ℤ
  y_min : ℤ
  x_max : ℤ
  y_max : ℤ
  lowest_rec_ppem : Nat
  index_to_loc_format : ℤ
deriving DecidableEq

structure Hhea where
  ascender : ℤ
  descender : ℤ
  line_gap : ℤ
  advance_width_max : Nat
  x_max_extent : ℤ
  number_of_h_metrics : Nat
deriving DecidableEq

structure LongMetric where
  advance : Nat
  side_bearing : ℤ
deriving DecidableEq

structure Post where
  italic_angle : ℚ
  underline_position : ℤ
  underline_thickness : ℤ
  is_fixed_pitch : Nat
  min_mem_type42 : Nat
  max_mem_type42 : Nat
  min_mem_type1 : Nat
  max_mem_type1 : Nat
  /-- `Version16Dot16::VERSION_3_0`, recorded as the major version. -/
  version : Nat
deriving DecidableEq

/-- A `NameRecord` under platform 3 / encoding 1 / language 0x0409; the
name-id constants carry their OpenType values (COPYRIGHT_NOTICE = 0,
FAMILY_NAME = 1, SUBFAMILY_NAME = 2, FULL_NAME = 4, VERSION_STRING = 5,
POSTSCRIPT_NAME = 6, DESCRIPTION = 10, VENDOR_URL = 11,
TYPOGRAPHIC_FAMILY_NAME = 16, TYPOGRAPHIC_SUBFAMILY_NAME = 17). -/
structure NameRecord where
  platform_id : Nat
  encoding_id : Nat
  language_id : Nat
  name_id : Nat
  string : String
deriving DecidableEq

structure Os2 where
  x_avg_char_width : ℤ
  us_weight_class : Nat
  us_width_class : Nat
  panose_10 : List Nat
  /-- `SelectionFlags::REGULAR` = bit 6 = 64. -/
  fs_selection : Nat
  us_first_char_index : Nat
  us_last_char_index : Nat
  s_typo_ascender : ℤ
  s_typo_descender : ℤ
  s_typo_line_gap : ℤ
  us_win_ascent : Nat
  us_win_descent : Nat
  ul_code_page_range_1 : Option Nat
  ul_code_page_range_2 : Option Nat
  sx_height : Option ℤ
  s_cap_height : Option ℤ
  us_default_char : Option Nat
  us_break_char : Option Nat
  us_max_context : Option Nat
deriving DecidableEq

/-- The assembled font: all tables handed to `FontBuilder`, the cmap
mappings, the glyphs added to the `GlyfLocaBuilder` and the chosen loca
format.  `FontBuilder::build` serializes this data deterministically
(external write_fonts code), so two equal `FontImage`s yield identical
byte output. -/
structure FontImage where
  head : Head
  hhea : Hhea
  maxp_num_glyphs : Nat
  hmtx : List LongMetric
  os2 : Os2
  post : Post
  name : List NameRecord
  cmapPairs : List (Char × Nat)
  glyphs : List Glyph
  locaFormat : LocaFormat
deriving DecidableEq

/-- The external library functions the pipeline calls, passed explicitly:
their code is not part of this repository, but each is a fixed
deterministic function.  A fallible call is modelled with its error's
debug text (`Result::expect(msg)` panics with `msg` followed by `: ` and
that text): `Except.error e` / `some e` stands for `Err(e)`. -/
structure FontDeps where
  /-- usvg `Tree::from_data` plus the group/path traversal of
  `collect_group_paths`, producing one flattened outline; `Except.error`
  models a parse failure (`expect("usvg parse failed")`). -/
  parseSvgOutline : String → Except String (List PathEl)
  /-- kurbo `CubicBez::to_quads(0.1)`: `(q.p1, q.p2)` per quadratic. -/
  toQuads : Point → Point → Point → Point → List (Point × Point)
  /-- kurbo `Shape::bounding_box`. -/
  bboxOf : List PathEl → Rect
  /-- write_fonts `SimpleGlyph::from_bezpath`; `Except.error` models
  failure (`expect("malformed outline")`). -/
  fromBezpath : List PathEl → Except String SimpleGlyphRec
  /-- write_fonts `GlyfLocaBuilder::add_glyph`, called once on
  `Glyph::Empty` (`expect(".notdef")`) and once per processed glyph
  (`expect("add glyph")`); `some e` models failure, the returned glyph id
  is discarded by the source. -/
  addGlyph : Glyph → Option String
  /-- write_fonts `Cmap::from_mappings`
  (`expect("failed to build cmap from glyph mappings")`); `some e`
  models failure. -/
  cmapFromMappings : List (Char × Nat) → Option String
  /-- the loca format chosen by `GlyfLocaBuilder::build` (short or long
  offsets, by total size). -/
  buildLocaFormat : List Glyph → LocaFormat
  /-- write_fonts `FontBuilder::add_table`, one field per table the code
  adds (src/generator/font/ttf.rs:263-272); `some e` models a
  serialization failure. -/
  addHead : Head → Option String
  addHhea : Hhea → Option String
  addMaxp : Nat → Option String
  addHmtx : List LongMetric → Option String
  addOs2 : Os2 → Option String
  addPost : Post → Option String
  addName : List NameRecord → Option String
  addCmap : List (Char × Nat) → Option String
  addGlyf : List Glyph → Option String
  addLoca : List Glyph → Option String

/-- `svg_to_bez` (src/generator/font/svg.rs:156); a parse failure panics
with `expect("usvg parse failed")`, whose message appends the error's
debug text. -/
def svg_to_bez (deps : FontDeps) (svg_or_d : String) : Except String ParsedSvg :=
  let svg := wrap_svg_if_needed svg_or_d
  let view_box := extract_view_box svg
  match deps.parseSvgOutline svg with
  | Except.error e => Except.error ("usvg parse failed: " ++ e)
  | Except.ok out => Except.ok ⟨out, view_box⟩

/-- `svg_to_quadratics` (src/generator/font/svg.rs:281). -/
def svg_to_quadratics (deps : FontDeps) (svg_or_d : String) :
    Except String ParsedSvg := do
  let parsed ← svg_to_bez deps svg_or_d
  let out ← bezpath_with_quadratics deps.toQuads parsed.outline
  Except.ok { parsed with outline := out }

/-- The per-glyph body of the loop in `generate_font_bytes`
(src/generator/font/ttf.rs:80-90): quadratic conversion, em-space
mapping, `SimpleGlyph::from_bezpath`, then forcing `bbox.x_min` and
`bbox.y_min` to `0`. -/
def processGlyph (deps : FontDeps) (units_per_em : Nat)
    (max_width max_height : ℚ) (icon : String) : Except String SimpleGlyphRec := do
  let parsed ← svg_to_quadratics deps icon
  let mapped ← map_svg_to_em_space deps.bboxOf parsed units_per_em max_width max_height
  match deps.fromBezpath mapped.outline with
  | Except.error e => Except.error ("malformed outline: " ++ e)
  | Except.ok sg => Except.ok { sg with x_min := 0, y_min := 0 }

/-- `BTreeMap::get` on the embedded map (first bucket with the key). -/
def mapLookup : GlyphMap → Collection → Option (List PackIcon)
  | [], _ => none
  | (c, ps) :: rest, k => if c = k then some ps else mapLookup rest k

/-- `glyphs.get_mut(&collection).and_then(|packs| packs.get_mut(index))`. -/
def lookupEntry (g : GlyphMap) (e : Collection × Nat) : Option PackIcon :=
  (mapLookup g e.1).bind (fun ps => ps[e.2]?)

/-- Overwrite the `icon` field of the pack at a given index. -/
def setIcon : List PackIcon → Nat → String → List PackIcon
  | [], _, _ => []
  | p :: ps, 0, s => { p with icon := s } :: ps
  | p :: ps, i + 1, s => p :: setIcon ps i s

/-- The in-place mutation `pack.icon = ch.to_string()` on the map. -/
def mapUpdate : GlyphMap → Collection → Nat → String → GlyphMap
  | [], _, _, _ => []
  | (c, ps) :: rest, k, i, s =>
    if c = k then (c, setIcon ps i s) :: rest else (c, ps) :: mapUpdate rest k i s

/-- `char::from_u32` (total on `u16` inputs except surrogates). -/
def charFromU32 (n : Nat) : Option Char :=
  if Nat.isValidChar n then some (Char.ofNat n) else none

/-- The glyph loop of `generate_font_bytes` (src/generator/font/ttf.rs:70-100),
processing the `(collection, index)` entries in order while threading the
mutated map and the `u16` counters `next_codepoint` and `next_gid`
(`wrapping_add` ⇒ `% 65536`).  Returns the final map, the
`(char, glyph-id)` pairs pushed onto `codepoints`, and the simple glyphs
added to the `GlyfLocaBuilder`, each in push order; the per-glyph
`gl.add_glyph(&sg).expect("add glyph")` (line 90) is a fallible call of
the external builder. -/
def runGlyphs (deps : FontDeps) :
    GlyphMap → List (Collection × Nat) → Nat → Nat →
    Except String (GlyphMap × List (Char × Nat) × List SimpleGlyphRec)
  | g, [], _, _ => Except.ok (g, [], [])
  | g, e :: rest, cp, gid =>
    match lookupEntry g e with
    | none =>
      Except.error ("glyph order mismatch for collection '" ++ e.1.name ++ "'")
    | some pack =>
      if (rustTrim pack.icon).data.isEmpty then
        Except.error (pack.enum_variant ++ " svg should not be empty")
      else
        match processGlyph deps 1000 1000 1000 pack.icon with
        | Except.error msg => Except.error msg
        | Except.ok sg =>
          match deps.addGlyph (Glyph.Simple sg) with
          | some e2 => Except.error ("add glyph: " ++ e2)
          | none =>
            match charFromU32 cp with
            | none => Except.error "valid PUA codepoint"
            | some ch =>
              let g' := mapUpdate g e.1 e.2 (String.mk [ch])
              match runGlyphs deps g' rest ((cp + 1) % 65536) ((gid + 1) % 65536) with
              | Except.error msg => Except.error msg
              | Except.ok (g'', pairs, sgs) =>
                Except.ok (g'', (ch, gid) :: pairs, sg :: sgs)

/-- The table values `generate_font_bytes` computes after the glyph loop
(src/generator/font/ttf.rs:102-258), assembled into the `FontImage`
handed to `FontBuilder`.  All constants (`units_per_em = 1000`,
`ascent = 1000`, `descent = 0`, `advance_width = 1000`) and derived
values follow the source; arithmetic on `u16` quantities carries an
explicit `% 65536` where the source uses (or release-mode Rust would
apply) wrapping semantics. -/
def fontTables (deps : FontDeps) (module_name : String)
    (codepoints : List (Char × Nat)) (sgs : List SimpleGlyphRec) : FontImage :=
  let total_glyphs := (1 + codepoints.length) % 65536
  let glyphEntries := Glyph.Empty :: sgs.map Glyph.Simple
  let loca_fmt := deps.buildLocaFormat glyphEntries
  let index_to_loc_format : ℤ := match loca_fmt with
    | LocaFormat.Short => 0
    | LocaFormat.Long => 1
  let head : Head :=
    ⟨1, 0, 1000, 0, 0, 1000, 1000, 8, index_to_loc_format⟩
  let number_of_h_metrics := max total_glyphs 1
  let hhea : Hhea := ⟨1000, 0, 0, 1000, 1000, number_of_h_metrics⟩
  let hmtx := List.replicate number_of_h_metrics (⟨1000, 0⟩ : LongMetric)
  let post : Post := ⟨0, 10, 0, 0, 0, 0, 0, 0, 3⟩
  let family := module_name
  let subfam := "Regular"
  let full := family ++ " " ++ subfam
  let ps := make_postscript_name module_name ++ "-" ++ subfam
  let nameRecs : List NameRecord :=
    [⟨3, 1, 0x0409, 0, "Contains third-party icons under their original licenses."⟩,
     ⟨3, 1, 0x0409, 1, family⟩,
     ⟨3, 1, 0x0409, 2, subfam⟩,
     ⟨3, 1, 0x0409, 4, full⟩,
     ⟨3, 1, 0x0409, 5, "Version 1.000"⟩,
     ⟨3, 1, 0x0409, 6, ps⟩,
     ⟨3, 1, 0x0409, 10, "Auto generated icon collection"⟩,
     ⟨3, 1, 0x0409, 11, "https://github.com/iMohmmedSA"⟩,
     ⟨3, 1, 0x0409, 16, family⟩,
     ⟨3, 1, 0x0409, 17, subfam⟩]
  let last_char_index :=
    if total_glyphs > 1 then (0xE000 + (total_glyphs - 2)) % 65536 else 0xE000
  let os2 : Os2 :=
    ⟨1000, 400, 5, List.replicate 10 0, 64, 0xE000, last_char_index,
      1000, 0, 0, 1000, 0, some 0, some 0, some 0, some 0, some 0, some 0, some 0⟩
  ⟨head, hhea, total_glyphs, hmtx, os2, post, nameRecs, codepoints,
    glyphEntries, loca_fmt⟩

/-- A sequence of `expect`ed fallible calls, run in order: the first
failure aborts with its `expect` message followed by `: ` and the
error's debug text (Rust `Result::expect`). -/
def addAll : List (String × Option String) → Except String Unit
  | [] => Except.ok ()
  | (msg, o) :: rest =>
    match o with
    | some e => Except.error (msg ++ ": " ++ e)
    | none => addAll rest

/-- The fallible table-assembly calls of `generate_font_bytes`, in
source order: `Cmap::from_mappings` (src/generator/font/ttf.rs:260)
followed by the ten `fb.add_table(..)` calls (lines 263-272), each with
its `expect` message. -/
def tableAdds (deps : FontDeps) (img : FontImage) :
    List (String × Option String) :=
  [("failed to build cmap from glyph mappings",
     deps.cmapFromMappings img.cmapPairs),
   ("add head", deps.addHead img.head),
   ("add hhea", deps.addHhea img.hhea),
   ("add maxp", deps.addMaxp img.maxp_num_glyphs),
   ("add hmtx", deps.addHmtx img.hmtx),
   ("add os/2", deps.addOs2 img.os2),
   ("add post", deps.addPost img.post),
   ("add name", deps.addName img.name),
   ("add cmap", deps.addCmap img.cmapPairs),
   ("add glyf", deps.addGlyf img.glyphs),
   ("add loca", deps.addLoca img.glyphs)]

/-- The `expect` messages of the table-assembly calls, each naming the
table it builds or adds. -/
def addMessages : List String :=
  ["failed to build cmap from glyph mappings", "add head", "add hhea",
   "add maxp", "add hmtx", "add os/2", "add post", "add name", "add cmap",
   "add glyf", "add loca"]

/-- `generate_font_bytes` (src/generator/font/ttf.rs:50): the initial
`gl.add_glyph(&Glyph::Empty).expect(".notdef")` (line 62), the glyph
loop, the table construction (`fontTables`) and the fallible
cmap/`add_table` calls (`tableAdds`), in source order. -/
def generate_font_bytes (deps : FontDeps) (module_name : String)
    (glyphs : GlyphMap) : Except String (FontImage × GlyphMap) :=
  match deps.addGlyph Glyph.Empty with
  | some e => Except.error (".notdef: " ++ e)
  | none =>
    match runGlyphs deps glyphs (glyphs_in_order glyphs) 0xE000 1 with
    | Except.error msg => Except.error msg
    | Except.ok (g', codepoints, sgs) =>
      match addAll (tableAdds deps (fontTables deps module_name codepoints sgs)) with
      | Except.error msg => Except.error msg
      | Except.ok _ =>
        Except.ok (fontTables deps module_name codepoints sgs, g')

/-! ## Derived views of `glyphs_in_order` used in the proofs -/

/-- The entries of the map keyed by `(collection, index)`, in bucket
iteration order: the same traversal as `entriesTriples`, but keeping the
whole pack. -/
def keyedEntries (g : GlyphMap) : List ((Collection × Nat) × PackIcon) :=
  g.flatMap (fun cp => cp.2.enum.map (fun ip => ((cp.1, ip.1), ip.2)))

def leKeyed (a b : (Collection × Nat) × PackIcon) : Prop :=
  a.2.order ≤ b.2.order

instance : DecidableRel leKeyed := fun a b =>
  inferInstanceAs (Decidable (a.2.order ≤ b.2.order))

instance : IsTrans ((Collection × Nat) × PackIcon) leKeyed :=
  ⟨fun _ _ _ => Nat.le_trans⟩

instance : IsTotal ((Collection × Nat) × PackIcon) leKeyed :=
  ⟨fun a b => Nat.le_total a.2.order b.2.order⟩

def lePack (a b : PackIcon) : Prop := a.order ≤ b.order

instance : DecidableRel lePack := fun a b =>
  inferInstanceAs (Decidable (a.order ≤ b.order))

instance : IsTrans PackIcon lePack := ⟨fun _ _ _ => Nat.le_trans⟩

instance : IsTotal PackIcon lePack := ⟨fun a b => Nat.le_total a.order b.order⟩

/-- The keyed entries sorted stably by `order`. -/
def sortedKeyed (g : GlyphMap) : List ((Collection × Nat) × PackIcon) :=
  (keyedEntries g).insertionSort leKeyed

/-- All glyphs of the map sorted stably by global `order`: the sequence
of packs that the synthesis loop processes. -/
def orderedPacks (g : GlyphMap) : List PackIcon :=
  (flatten g).insertionSort lePack

/-- The assigned scalar values (`cmap` codepoints) of a finished run. -/
def cmapScalarAt (r : Except String (FontImage × GlyphMap)) (i : Nat) : Option Nat :=
  match r with
  | Except.ok (img, _) => (img.cmapPairs[i]?).map (fun pr => pr.1.toNat)
  | Except.error _ => none

/-- The scalar values of the `icon` text of the pack stored at a given
`(collection, index)` of the final map of a finished run. -/
def iconScalarsAt (r : Except String (FontImage × GlyphMap))
    (e : Collection × Nat) : Option (List Nat) :=
  match r with
  | Except.ok (_, g') => (lookupEntry g' e).map (fun p => p.icon.data.map Char.toNat)
  | Except.error _ => none

/-- Whether a lineto/quadratic/cubic command occurs before the first
moveto (the situation the `assert!`s of `bezpath_with_quadratics`
detect; the source does not check `ClosePath`). -/
def hasSegBeforeMove : List PathEl → Bool
  | [] => false
  | PathEl.MoveTo _ :: _ => false
  | PathEl.ClosePath :: rest => hasSegBeforeMove rest
  | _ => true

/-! ## Concrete inputs used in witnesses and counterexamples -/

def outline24 : List PathEl :=
  [PathEl.MoveTo ⟨0, 0⟩, PathEl.LineTo ⟨24, 0⟩, PathEl.LineTo ⟨24, 24⟩,
    PathEl.ClosePath]

/-- An instantiation of the external dependencies under which every glyph
processes successfully (the parser returns a fixed 24×24 triangle
outline, every builder succeeds). -/
def trivialDeps : FontDeps where
  parseSvgOutline := fun _ => Except.ok outline24
  toQuads := fun _ _ _ _ => []
  bboxOf := pointsBBox
  fromBezpath := fun p => Except.ok ⟨p, 3, 5⟩
  addGlyph := fun _ => none
  cmapFromMappings := fun _ => none
  buildLocaFormat := fun _ => LocaFormat.Short
  addHead := fun _ => none
  addHhea := fun _ => none
  addMaxp := fun _ => none
  addHmtx := fun _ => none
  addOs2 := fun _ => none
  addPost := fun _ => none
  addName := fun _ => none
  addCmap := fun _ => none
  addGlyf := fun _ => none
  addLoca := fun _ => none

/-- Dependencies whose document parser fails on every input (with the
debug text `ParsingFailed`), as usvg does on malformed markup. -/
def failParseDeps : FontDeps :=
  { trivialDeps with parseSvgOutline := fun _ => Except.error "ParsingFailed" }

def colA : Collection := ⟨"a", false⟩

def colB : Collection := ⟨"b", false⟩

def dIcon : String := "M0 0 L24 0 L24 24 Z"

def mkPack (i : Nat) : PackIcon := ⟨"I", dIcon, i⟩

/-- 8193 glyphs in one collection, orders `0, …, 8192`: one more glyph
than the `u16` codepoint counter can serve from `0xE000` without
wrapping. -/
def bigMap : GlyphMap := [(colA, (List.range 8193).map mkPack)]

def packP : PackIcon := ⟨"P", dIcon, 7⟩

def packQ : PackIcon := ⟨"Q", dIcon, 7⟩

/-- Two glyphs with equal `order` stored under collection keys `a`/`b`. -/
def dupMapA : GlyphMap := [(colA, [packP]), (colB, [packQ])]

/-- The same two glyphs with the buckets swapped. -/
def dupMapB : GlyphMap := [(colA, [packQ]), (colB, [packP])]

def mdiCol : Collection := ⟨"mdi", false⟩

/-- A single glyph whose markup the document parser rejects. -/
def badParseMap : GlyphMap := [(mdiCol, [⟨"Home", "<svg bad", 0⟩])]

/-- A single glyph with blank source text. -/
def blankMap : GlyphMap := [(mdiCol, [⟨"Home", "   ", 0⟩])]

/-- The ten table names of the assembled font. -/
def tableNames : List String :=
  ["head", "hhea", "maxp", "hmtx", "os/2", "post", "name", "cmap", "glyf", "loca"]

/-- The fixed fatal messages of the pipeline that name no glyph,
collection or table: the `assert!` texts of curve normalization and
em-space mapping, and the `Option`-`expect` text of codepoint
construction (none of these appends an error value). -/
def anonMessages : List String :=
  ["LineTo before MoveTo in input path",
   "QuadTo before MoveTo in input path", "CurveTo before MoveTo in input path",
   "SVG dimensions are too small", "cannot scale to target box",
   "valid PUA codepoint"]

/-- The `expect` prefixes of the pipeline's remaining fatal messages
that name no glyph, collection or table: each is followed by `: ` and
the underlying error's debug text. -/
def anonPrefixes : List String :=
  ["usvg parse failed", "malformed outline", ".notdef", "add glyph"]

/-- A fatal message that names neither a glyph identifier, nor a
collection, nor a table: either one of the fixed `assert!`-style
messages, or an `expect` message starting with one of the anonymous
prefixes. -/
def anonFatal (msg : String) : Prop :=
  msg ∈ anonMessages ∨ ∃ p ∈ anonPrefixes, strStarts msg (p ++ ": ") = true

/-- Two glyphs with distinct orders 5 and 2 in different collections. -/
def witMapA : GlyphMap := [(colA, [⟨"P", dIcon, 5⟩]), (colB, [⟨"Q", dIcon, 2⟩])]

/-- The same two glyphs stored together in one bucket, other order. -/
def witMapB : GlyphMap := [(colA, [⟨"Q", dIcon, 2⟩, ⟨"P", dIcon, 5⟩])]

/-- A conversion of each cubic into two fixed quadratics, standing in for
kurbo's `to_quads` on the witness path. -/
def twoQuads (cp c1 c2 p : Point) : List (Point × Point) :=
  [(c1, ⟨(cp.x + p.x) / 2, (cp.y + p.y) / 2⟩), (c2, p)]

/-- A path with one cubic between ordinary commands. -/
def mixedPath : List PathEl :=
  [PathEl.MoveTo ⟨0, 0⟩, PathEl.LineTo ⟨1, 0⟩,
    PathEl.CurveTo ⟨2, 0⟩ ⟨3, 1⟩ ⟨3, 2⟩, PathEl.QuadTo ⟨3, 3⟩ ⟨2, 3⟩,
    PathEl.ClosePath]

/-- The normalizer's output on `mixedPath` under `twoQuads`. -/
def mixedOut : List PathEl :=
  [PathEl.MoveTo ⟨0, 0⟩, PathEl.LineTo ⟨1, 0⟩,
    PathEl.QuadTo ⟨2, 0⟩ ⟨2, 1⟩, PathEl.QuadTo ⟨3, 1⟩ ⟨3, 2⟩,
    PathEl.QuadTo ⟨3, 3⟩ ⟨2, 3⟩, PathEl.ClosePath]

/-- The em-space image of `outline24` under the 24×24 view-box mapping:
every coordinate scaled by 1000/24 and the y axis flipped. -/
def emOutline24 : List PathEl :=
  [PathEl.MoveTo ⟨0, 1000⟩, PathEl.LineTo ⟨1000, 1000⟩,
    PathEl.LineTo ⟨1000, 0⟩, PathEl.ClosePath]

/-- A document whose `viewBox` width literal is the IEEE spelling `nan`,
which Rust's `f64` parser accepts. -/
def nanSvg : String := "<svg viewBox=\"0 0 nan 1\"></svg>"

/-- The default document `wrap_svg_if_needed` produces for bare path data. -/
def wrappedDIcon : String :=
  "<svg xmlns=\"http://www.w3.org/2000/svg\" viewBox=\"0 0 24 24\"><path d=\"M0 0 L24 0 L24 24 Z\"/></svg>"

/-! ## Lemmas: the canonical glyph order -/

lemma entriesTriples_eq_map (g : GlyphMap) :
    entriesTriples g = (keyedEntries g).map (fun e => (e.2.order, e.1.1, e.1.2)) := by
  simp only [entriesTriples, keyedEntries, List.map_flatMap, List.map_map]
  rfl

lemma glyphs_in_order_eq (g : GlyphMap) :
    glyphs_in_order g = (sortedKeyed g).map (fun e => e.1) := by
  unfold glyphs_in_order sortedKeyed
  have hms := List.map_insertionSort leKeyed leOrder
    (fun e : (Collection × Nat) × PackIcon => (e.2.order, e.1.1, e.1.2))
    (keyedEntries g) (fun a _ b _ => Iff.rfl)
  rw [entriesTriples_eq_map, ← hms, List.map_map]
  exact List.map_congr_left (fun e _ => rfl)

lemma flatten_eq_map (g : GlyphMap) :
    flatten g = (keyedEntries g).map (fun e => e.2) := by
  induction g with
  | nil => rfl
  | cons cp rest ih =>
    simp only [flatten, keyedEntries, List.flatMap_cons, List.map_append,
      List.map_map] at *
    rw [ih]
    congr 1
    have : ((fun e : (Collection × Nat) × PackIcon => e.2) ∘
        fun ip : Nat × PackIcon => ((cp.1, ip.1), ip.2)) = Prod.snd := rfl
    rw [this, List.enum_eq_enumFrom, List.enumFrom_map_snd]

lemma orderedPacks_eq_sortedKeyed (g : GlyphMap) :
    orderedPacks g = (sortedKeyed g).map (fun e => e.2) := by
  unfold orderedPacks sortedKeyed
  have hms := List.map_insertionSort leKeyed lePack
    (fun e : (Collection × Nat) × PackIcon => e.2)
    (keyedEntries g) (fun a _ b _ => Iff.rfl)
  rw [flatten_eq_map, ← hms]

lemma key_mem_of_mem_keyedEntries {g : GlyphMap}
    {e : (Collection × Nat) × PackIcon} (h : e ∈ keyedEntries g) :
    e.1.1 ∈ g.map Prod.fst := by
  simp only [keyedEntries, List.mem_flatMap] at h
  obtain ⟨cp, hcp, h⟩ := h
  obtain ⟨ip, _, rfl⟩ := List.mem_map.mp h
  exact List.mem_map.mpr ⟨cp, hcp, rfl⟩

lemma validMap_tail {cp : Collection × List PackIcon} {rest : GlyphMap}
    (hv : validMap (cp :: rest)) :
    validMap rest ∧ cp.1 ∉ rest.map Prod.fst := by
  simp only [validMap, List.map_cons, List.nodup_cons] at hv
  exact ⟨hv.2, hv.1⟩

lemma lookupEntry_of_mem_keyedEntries {g : GlyphMap} (hv : validMap g) :
    ∀ e ∈ keyedEntries g, lookupEntry g e.1 = some e.2 := by
  induction g with
  | nil => intro e he; simp [keyedEntries] at he
  | cons cp rest ih =>
    intro e he
    obtain ⟨hv', hk⟩ := validMap_tail hv
    simp only [keyedEntries, List.flatMap_cons] at he
    rcases List.mem_append.mp he with h | h
    · obtain ⟨ip, hip, rfl⟩ := List.mem_map.mp h
      obtain ⟨i, p⟩ := ip
      have hget : cp.2[i]? = some p := by
        have := List.mk_mem_enum_iff_getElem?.mp hip
        simpa using this
      simp [lookupEntry, mapLookup, hget]
    · have hne : cp.1 ≠ e.1.1 := by
        intro hEq
        exact hk (hEq ▸ key_mem_of_mem_keyedEntries h)
      have := ih hv' e h
      simpa [lookupEntry, mapLookup, hne] using this

lemma keyedKeys_nodup {g : GlyphMap} (hv : validMap g) :
    ((keyedEntries g).map (fun e => e.1)).Nodup := by
  induction g with
  | nil => simp [keyedEntries]
  | cons cp rest ih =>
    obtain ⟨hv', hk⟩ := validMap_tail hv
    simp only [keyedEntries, List.flatMap_cons, List.map_append]
    refine List.Nodup.append ?_ (ih hv') ?_
    · rw [List.map_map]
      have : ((fun e : (Collection × Nat) × PackIcon => e.1) ∘
          fun ip : Nat × PackIcon => ((cp.1, ip.1), ip.2)) =
          ((fun i => (cp.1, i)) ∘ Prod.fst) := rfl
      rw [this, ← List.map_map]
      refine List.Nodup.map (fun a b hab => ?_) ?_
      · exact congrArg Prod.snd hab
      · rw [List.enum_map_fst]
        exact List.nodup_range _
    · intro a ha hb
      rw [List.map_map] at ha
      obtain ⟨ip, _, rfl⟩ := List.mem_map.mp ha
      obtain ⟨e, he, hEq⟩ := List.mem_map.mp hb
      apply hk
      have := key_mem_of_mem_keyedEntries he
      rw [hEq] at this
      exact this

lemma mem_sortedKeyed {g : GlyphMap} {e : (Collection × Nat) × PackIcon} :
    e ∈ sortedKeyed g ↔ e ∈ keyedEntries g := List.mem_insertionSort leKeyed

/-- The loop's lookups resolve the canonical key sequence to exactly the
packs sorted by global `order`. -/
lemma glyphs_in_order_resolves {g : GlyphMap} (hv : validMap g) :
    (glyphs_in_order g).map (lookupEntry g) = (orderedPacks g).map some := by
  rw [glyphs_in_order_eq, orderedPacks_eq_sortedKeyed, List.map_map, List.map_map]
  refine List.map_congr_left (fun e he => ?_)
  exact lookupEntry_of_mem_keyedEntries hv e (mem_sortedKeyed.mp he)

lemma orderedPacks_perm (g : GlyphMap) : List.Perm (orderedPacks g) (flatten g) :=
  List.perm_insertionSort lePack (flatten g)

lemma orderedPacks_sorted (g : GlyphMap) :
    (orderedPacks g).Pairwise (fun a b => a.order ≤ b.order) :=
  List.sorted_insertionSort lePack (flatten g)

/-- With pairwise-distinct `order` values, the processed pack sequence is
independent of how the glyphs are distributed over collection buckets. -/
lemma orderedPacks_eq_of_perm {g₁ g₂ : GlyphMap}
    (hperm : List.Perm (flatten g₁) (flatten g₂))
    (hdist : ((flatten g₁).map PackIcon.order).Nodup) :
    orderedPacks g₁ = orderedPacks g₂ := by
  refine List.Perm.eq_of_sorted
    (fun a b ha hb (hab : a.order ≤ b.order) (hba : b.order ≤ a.order) => ?_)
    ?_ ?_ ?_
  · have ha' : a ∈ flatten g₁ := (orderedPacks_perm g₁).mem_iff.mp ha
    have hb' : b ∈ flatten g₁ :=
      hperm.mem_iff.mpr ((orderedPacks_perm g₂).mem_iff.mp hb)
    exact List.inj_on_of_nodup_map hdist ha' hb' (Nat.le_antisymm hab hba)
  · exact orderedPacks_sorted g₁
  · exact orderedPacks_sorted g₂
  · exact ((orderedPacks_perm g₁).trans hperm).trans (orderedPacks_perm g₂).symm

/-- With pairwise-distinct `order` values the canonical order is strictly
ascending. -/
lemma orderedPacks_strict {g : GlyphMap}
    (hdist : ((flatten g).map PackIcon.order).Nodup) :
    (orderedPacks g).Pairwise (fun a b => a.order < b.order) := by
  have hnd : ((orderedPacks g).map PackIcon.order).Nodup :=
    (((orderedPacks_perm g).map PackIcon.order).nodup_iff).mpr hdist
  have hne : (orderedPacks g).Pairwise (fun a b => a.order ≠ b.order) :=
    List.pairwise_map.mp hnd
  exact ((orderedPacks_sorted g).and hne).imp
    (fun h => Nat.lt_of_le_of_ne h.1 h.2)

/-! ## Lemmas: the glyph loop -/

lemma charFromU32_eq {n : Nat} {c : Char} (h : charFromU32 n = some c) :
    c = Char.ofNat n := by
  unfold charFromU32 at h
  split at h
  · exact (Option.some.injEq _ _ ▸ h).symm
  · exact Option.noConfusion h

lemma setIcon_getElem? :
    ∀ (ps : List PackIcon) (i j : Nat) (s : String),
      (setIcon ps i s)[j]? =
        if j = i then (ps[j]?).map (fun p => { p with icon := s }) else ps[j]?
  | [], i, j, s => by simp [setIcon]
  | p :: ps, 0, 0, s => by simp [setIcon]
  | p :: ps, 0, j + 1, s => by simp [setIcon]
  | p :: ps, i + 1, 0, s => by simp [setIcon]
  | p :: ps, i + 1, j + 1, s => by
    simp only [setIcon, List.getElem?_cons_succ, setIcon_getElem? ps i j s]
    by_cases h : j = i <;> simp [h]

lemma mapLookup_mapUpdate :
    ∀ (g : GlyphMap) (c : Collection) (i : Nat) (s : String) (k : Collection),
      mapLookup (mapUpdate g c i s) k =
        if k = c then (mapLookup g c).map (fun ps => setIcon ps i s)
        else mapLookup g k
  | [], c, i, s, k => by simp [mapUpdate, mapLookup]
  | (c', ps) :: rest, c, i, s, k => by
    by_cases h1 : c' = c
    · subst h1
      by_cases h2 : c' = k
      · subst h2
        simp [mapUpdate, mapLookup]
      · have h2' : ¬ k = c' := fun h => h2 h.symm
        simp [mapUpdate, mapLookup, h2, h2', mapLookup_mapUpdate rest c' i s k]
    · by_cases h2 : c' = k
      · subst h2
        have h1' : ¬ c' = c := h1
        simp [mapUpdate, mapLookup, h1', fun h => h1 (h : c' = c)]
      · simp [mapUpdate, mapLookup, h1, h2, mapLookup_mapUpdate rest c i s k]

lemma lookupEntry_mapUpdate (g : GlyphMap) (c : Collection) (i : Nat)
    (s : String) (e : Collection × Nat) :
    lookupEntry (mapUpdate g c i s) e =
      if e = (c, i) then (lookupEntry g e).map (fun p => { p with icon := s })
      else lookupEntry g e := by
  unfold lookupEntry
  rw [mapLookup_mapUpdate]
  by_cases hc : e.1 = c
  · rw [if_pos hc, hc]
    by_cases hi : e.2 = i
    · rw [if_pos (Prod.ext hc hi)]
      cases hps : mapLookup g c with
      | none => simp
      | some ps => simp [setIcon_getElem?, hi]
    · rw [if_neg (fun h => hi (congrArg Prod.snd h))]
      cases hps : mapLookup g c with
      | none => simp
      | some ps => simp [setIcon_getElem?, hi]
  · rw [if_neg hc, if_neg (fun h => hc (congrArg Prod.fst h))]

lemma runGlyphs_cons_ok {deps : FontDeps} {g : GlyphMap} {e : Collection × Nat}
    {rest : List (Collection × Nat)} {cp gid : Nat}
    {out : GlyphMap × List (Char × Nat) × List SimpleGlyphRec}
    (h : runGlyphs deps g (e :: rest) cp gid = Except.ok out) :
    ∃ pack sg ch res,
      lookupEntry g e = some pack ∧
      (rustTrim pack.icon).data.isEmpty = false ∧
      processGlyph deps 1000 1000 1000 pack.icon = Except.ok sg ∧
      deps.addGlyph (Glyph.Simple sg) = none ∧
      charFromU32 cp = some ch ∧
      runGlyphs deps (mapUpdate g e.1 e.2 (String.mk [ch])) rest
        ((cp + 1) % 65536) ((gid + 1) % 65536) = Except.ok res ∧
      out = (res.1, (ch, gid) :: res.2.1, sg :: res.2.2) := by
  cases hpk : lookupEntry g e with
  | none => simp [runGlyphs, hpk] at h
  | some pack =>
    by_cases hb : (rustTrim pack.icon).data.isEmpty
    · simp [runGlyphs, hpk, hb] at h
    · cases hpg : processGlyph deps 1000 1000 1000 pack.icon with
      | error msg => simp [runGlyphs, hpk, hb, hpg] at h
      | ok sg =>
        cases hag : deps.addGlyph (Glyph.Simple sg) with
        | some e2 => simp [runGlyphs, hpk, hb, hpg, hag] at h
        | none =>
          cases hch : charFromU32 cp with
          | none => simp [runGlyphs, hpk, hb, hpg, hag, hch] at h
          | some ch =>
            cases hrun : runGlyphs deps (mapUpdate g e.1 e.2 (String.mk [ch]))
                rest ((cp + 1) % 65536) ((gid + 1) % 65536) with
            | error msg => simp [runGlyphs, hpk, hb, hpg, hag, hch, hrun] at h
            | ok res =>
              obtain ⟨g2, pairs, sgs⟩ := res
              simp only [runGlyphs, hpk, hb, hpg, hag, hch, hrun] at h
              refine ⟨pack, sg, ch, (g2, pairs, sgs), rfl, by simpa using hb,
                hpg, hag, rfl, hrun, ?_⟩
              simpa using h.symm

lemma runGlyphs_pairs {deps : FontDeps} :
    ∀ (entries : List (Collection × Nat)) (g : GlyphMap) (cp gid : Nat)
      (out : GlyphMap × List (Char × Nat) × List SimpleGlyphRec),
      runGlyphs deps g entries cp gid = Except.ok out →
      cp < 65536 → gid < 65536 →
      out.2.1.length = entries.length ∧ out.2.2.length = entries.length ∧
      ∀ i, i < entries.length →
        out.2.1[i]? = some (Char.ofNat ((cp + i) % 65536), (gid + i) % 65536) := by
  intro entries
  induction entries with
  | nil =>
    intro g cp gid out h _ _
    obtain rfl : (g, [], []) = out := by simpa [runGlyphs] using h
    simp
  | cons e rest ih =>
    intro g cp gid out h hcp hgid
    obtain ⟨pack, sg, ch, res, hpk, hb, hpg, hag, hch, hrun, rfl⟩ := runGlyphs_cons_ok h
    have hrec := ih _ _ _ _ hrun (Nat.mod_lt _ (by omega)) (Nat.mod_lt _ (by omega))
    refine ⟨by simpa using hrec.1, by simpa using hrec.2.1, ?_⟩
    intro i hi
    match i with
    | 0 =>
      simp [charFromU32_eq hch, Nat.mod_eq_of_lt hcp, Nat.mod_eq_of_lt hgid]
    | i + 1 =>
      have := hrec.2.2 i (by simpa using hi)
      simpa [Nat.mod_add_mod, Nat.add_assoc, Nat.add_comm 1 i] using this

lemma runGlyphs_untouched {deps : FontDeps} :
    ∀ (entries : List (Collection × Nat)) (g : GlyphMap) (cp gid : Nat)
      (out : GlyphMap × List (Char × Nat) × List SimpleGlyphRec),
      runGlyphs deps g entries cp gid = Except.ok out →
      ∀ k, k ∉ entries → lookupEntry out.1 k = lookupEntry g k := by
  intro entries
  induction entries with
  | nil =>
    intro g cp gid out h k _
    obtain rfl : (g, [], []) = out := by simpa [runGlyphs] using h
    rfl
  | cons e rest ih =>
    intro g cp gid out h k hk
    obtain ⟨pack, sg, ch, res, hpk, hb, hpg, hag, hch, hrun, rfl⟩ := runGlyphs_cons_ok h
    have hk1 : k ≠ e := fun hEq => hk (hEq ▸ List.mem_cons_self e rest)
    have hk2 : k ∉ rest := fun hm => hk (List.mem_cons_of_mem e hm)
    have := ih _ _ _ _ hrun k hk2
    simp only at this ⊢
    rw [this, lookupEntry_mapUpdate,
      if_neg (fun hEq => hk1 (by simpa using hEq))]

lemma runGlyphs_final_icons {deps : FontDeps} :
    ∀ (entries : List (Collection × Nat)) (g : GlyphMap) (cp gid : Nat)
      (out : GlyphMap × List (Char × Nat) × List SimpleGlyphRec),
      runGlyphs deps g entries cp gid = Except.ok out →
      entries.Nodup → cp < 65536 →
      ∀ i (hi : i < entries.length),
        lookupEntry out.1 (entries.get ⟨i, hi⟩) =
          (lookupEntry g (entries.get ⟨i, hi⟩)).map
            (fun p => { p with icon := String.mk [Char.ofNat ((cp + i) % 65536)] }) := by
  intro entries
  induction entries with
  | nil =>
    intro g cp gid out h _ _ i hi
    exact absurd hi (by simp)
  | cons e rest ih =>
    intro g cp gid out h hnd hcp i hi
    obtain ⟨pack, sg, ch, res, hpk, hb, hpg, hag, hch, hrun, rfl⟩ := runGlyphs_cons_ok h
    have hnd' := List.nodup_cons.mp hnd
    match i with
    | 0 =>
      have huntouched := runGlyphs_untouched _ _ _ _ _ hrun e hnd'.1
      simp only [List.get] at huntouched ⊢
      rw [huntouched, lookupEntry_mapUpdate, if_pos rfl, hpk]
      simp [charFromU32_eq hch, Nat.mod_eq_of_lt hcp]
    | i + 1 =>
      have hi' : i < rest.length := by simpa using hi
      have hrec := ih _ _ _ _ hrun hnd'.2 (Nat.mod_lt _ (by omega)) i hi'
      simp only [List.get] at hrec ⊢
      rw [hrec, lookupEntry_mapUpdate]
      have hne : rest.get ⟨i, hi'⟩ ≠ e :=
        fun hEq => hnd'.1 (hEq ▸ rest.get_mem i hi')
      rw [if_neg (fun hEq => hne (by simpa using hEq))]
      rw [Nat.mod_add_mod, Nat.add_assoc, Nat.add_comm 1 i]

lemma runGlyphs_ok {deps : FontDeps} :
    ∀ (entries : List (Collection × Nat)) (g : GlyphMap) (cp gid : Nat),
      entries.Nodup →
      (∀ e ∈ entries, ∃ p, lookupEntry g e = some p ∧
        (rustTrim p.icon).data.isEmpty = false ∧
        (processGlyph deps 1000 1000 1000 p.icon).isOk) →
      (∀ sg, deps.addGlyph (Glyph.Simple sg) = none) →
      (∀ i, i < entries.length → Nat.isValidChar ((cp + i) % 65536)) →
      cp < 65536 →
      (runGlyphs deps g entries cp gid).isOk := by
  intro entries
  induction entries with
  | nil => intro g cp gid _ _ _ _ _; simp [runGlyphs, Except.isOk, Except.toBool]
  | cons e rest ih =>
    intro g cp gid hnd hres hadd hvalid hcp
    obtain ⟨p, hp, hblank, hproc⟩ := hres e (List.mem_cons_self e rest)
    obtain ⟨sg, hsg⟩ : ∃ sg, processGlyph deps 1000 1000 1000 p.icon = Except.ok sg := by
      cases hpg : processGlyph deps 1000 1000 1000 p.icon with
      | ok sg => exact ⟨sg, rfl⟩
      | error msg => rw [hpg] at hproc; exact Bool.noConfusion hproc
    have hvc : Nat.isValidChar cp := by
      have := hvalid 0 (by simp)
      simpa [Nat.mod_eq_of_lt hcp] using this
    have hch : charFromU32 cp = some (Char.ofNat cp) := by
      simp [charFromU32, hvc]
    have hnd' := List.nodup_cons.mp hnd
    have hres' : ∀ e2 ∈ rest, ∃ p2,
        lookupEntry (mapUpdate g e.1 e.2 (String.mk [Char.ofNat cp])) e2 = some p2 ∧
        (rustTrim p2.icon).data.isEmpty = false ∧
        (processGlyph deps 1000 1000 1000 p2.icon).isOk := by
      intro e2 he2
      obtain ⟨p2, hp2, hblank2, hproc2⟩ := hres e2 (List.mem_cons_of_mem e he2)
      refine ⟨p2, ?_, hblank2, hproc2⟩
      rw [lookupEntry_mapUpdate]
      have hne : e2 ≠ e := fun hEq => hnd'.1 (hEq ▸ he2)
      rw [if_neg (fun hEq => hne (by simpa using hEq))]
      exact hp2
    have hvalid' : ∀ i, i < rest.length →
        Nat.isValidChar (((cp + 1) % 65536 + i) % 65536) := by
      intro i hi
      have := hvalid (i + 1) (by simpa using Nat.succ_lt_succ hi)
      simpa [Nat.mod_add_mod, Nat.add_assoc, Nat.add_comm 1 i] using this
    have hrec := ih (mapUpdate g e.1 e.2 (String.mk [Char.ofNat cp]))
      ((cp + 1) % 65536) ((gid + 1) % 65536) hnd'.2 hres' hadd hvalid'
      (Nat.mod_lt _ (by omega))
    obtain ⟨res, hr⟩ : ∃ res, runGlyphs deps
        (mapUpdate g e.1 e.2 (String.mk [Char.ofNat cp])) rest
        ((cp + 1) % 65536) ((gid + 1) % 65536) = Except.ok res := by
      cases hr : runGlyphs deps (mapUpdate g e.1 e.2 (String.mk [Char.ofNat cp]))
          rest ((cp + 1) % 65536) ((gid + 1) % 65536) with
      | ok res => exact ⟨res, rfl⟩
      | error msg => rw [hr] at hrec; exact Bool.noConfusion hrec
    obtain ⟨g2, pairs, sgs⟩ := res
    simp [runGlyphs, hp, hblank, hsg, hadd sg, hch, hr, Except.isOk, Except.toBool]

/-! ## Lemmas: the full synthesis result -/

lemma char_toNat_ofNat {n : Nat} (h : n.isValidChar) : (Char.ofNat n).toNat = n := by
  simp [Char.ofNat, h, Char.toNat, Char.ofNatAux, UInt32.toNat, BitVec.toNat_ofNatLt]

lemma charFromU32_valid {n : Nat} {c : Char} (h : charFromU32 n = some c) :
    Nat.isValidChar n := by
  unfold charFromU32 at h
  split at h
  · assumption
  · exact Option.noConfusion h

lemma runGlyphs_validChars {deps : FontDeps} :
    ∀ (entries : List (Collection × Nat)) (g : GlyphMap) (cp gid : Nat)
      (out : GlyphMap × List (Char × Nat) × List SimpleGlyphRec),
      runGlyphs deps g entries cp gid = Except.ok out → cp < 65536 →
      ∀ i, i < entries.length → Nat.isValidChar ((cp + i) % 65536) := by
  intro entries
  induction entries with
  | nil => intro g cp gid out _ _ i hi; exact absurd hi (by simp)
  | cons e rest ih =>
    intro g cp gid out h hcp i hi
    obtain ⟨pack, sg, ch, res, hpk, hb, hpg, hag, hch, hrun, rfl⟩ := runGlyphs_cons_ok h
    match i with
    | 0 =>
      rw [Nat.add_zero, Nat.mod_eq_of_lt hcp]
      exact charFromU32_valid hch
    | i + 1 =>
      have := ih _ _ _ _ hrun (Nat.mod_lt _ (by omega)) i (by simpa using hi)
      simpa [Nat.mod_add_mod, Nat.add_assoc, Nat.add_comm 1 i] using this

lemma addAll_error_mem : ∀ {l : List (String × Option String)} {m : String},
    addAll l = Except.error m →
    ∃ s ∈ l, ∃ e, s.2 = some e ∧ m = s.1 ++ ": " ++ e := by
  intro l
  induction l with
  | nil => intro m h; exact Except.noConfusion h
  | cons s rest ih =>
    intro m h
    obtain ⟨ms, o⟩ := s
    cases o with
    | some e2 =>
      simp only [addAll] at h
      injection h with h2
      exact ⟨(ms, some e2), List.mem_cons_self _ _, e2, rfl, h2.symm⟩
    | none =>
      simp only [addAll] at h
      obtain ⟨s2, hs2, e2, ho, hm⟩ := ih h
      exact ⟨s2, List.mem_cons_of_mem _ hs2, e2, ho, hm⟩

lemma tableAdds_names (deps : FontDeps) (img : FontImage) :
    (tableAdds deps img).map Prod.fst = addMessages := rfl

lemma generate_ok_elim {deps : FontDeps} {m : String} {g : GlyphMap}
    {out : FontImage × GlyphMap}
    (h : generate_font_bytes deps m g = Except.ok out) :
    ∃ res, runGlyphs deps g (glyphs_in_order g) 0xE000 1 = Except.ok res ∧
      out.1.cmapPairs = res.2.1 ∧ out.2 = res.1 := by
  cases hnd : deps.addGlyph Glyph.Empty with
  | some e2 => simp [generate_font_bytes, hnd] at h
  | none =>
    cases hrun : runGlyphs deps g (glyphs_in_order g) 0xE000 1 with
    | error msg => simp [generate_font_bytes, hnd, hrun] at h
    | ok res =>
      obtain ⟨g', pairs, sgs⟩ := res
      cases hadd : addAll (tableAdds deps (fontTables deps m pairs sgs)) with
      | error m2 => simp [generate_font_bytes, hnd, hrun, hadd] at h
      | ok u =>
        cases u
        simp only [generate_font_bytes, hnd, hrun, hadd] at h
        injection h with h2
        exact ⟨(g', pairs, sgs), rfl,
          (congrArg (fun p : FontImage × GlyphMap => p.1.cmapPairs) h2).symm,
          (congrArg Prod.snd h2).symm⟩

lemma generate_error_elim {deps : FontDeps} {m : String} {g : GlyphMap}
    {msg : String} (h : generate_font_bytes deps m g = Except.error msg) :
    runGlyphs deps g (glyphs_in_order g) 0xE000 1 = Except.error msg ∨
    (∃ e, msg = ".notdef: " ++ e) ∨
    (∃ n ∈ addMessages, ∃ e, msg = n ++ ": " ++ e) := by
  cases hnd : deps.addGlyph Glyph.Empty with
  | some e2 =>
    simp only [generate_font_bytes, hnd] at h
    injection h with h2
    exact Or.inr (Or.inl ⟨e2, h2.symm⟩)
  | none =>
    cases hrun : runGlyphs deps g (glyphs_in_order g) 0xE000 1 with
    | error m2 =>
      left
      simp only [generate_font_bytes, hnd, hrun] at h
      injection h with h2
      rw [← h2]
    | ok res =>
      obtain ⟨g', pairs, sgs⟩ := res
      cases hadd : addAll (tableAdds deps (fontTables deps m pairs sgs)) with
      | error m2 =>
        simp only [generate_font_bytes, hnd, hrun, hadd] at h
        injection h with h2
        rw [h2] at hadd
        obtain ⟨t, ht, e2, _, hmsg⟩ := addAll_error_mem hadd
        refine Or.inr (Or.inr ⟨t.1, ?_, e2, hmsg⟩)
        have hm := List.mem_map_of_mem Prod.fst ht
        rw [tableAdds_names] at hm
        exact hm
      | ok u =>
        cases u
        simp [generate_font_bytes, hnd, hrun, hadd] at h

lemma glyphs_in_order_length (g : GlyphMap) :
    (glyphs_in_order g).length = (flatten g).length := by
  rw [glyphs_in_order_eq, List.length_map, sortedKeyed,
    List.length_insertionSort, flatten_eq_map, List.length_map]

lemma glyphs_in_order_nodup {g : GlyphMap} (hv : validMap g) :
    (glyphs_in_order g).Nodup := by
  rw [glyphs_in_order_eq]
  have hperm : List.Perm ((sortedKeyed g).map (fun e => e.1))
      ((keyedEntries g).map (fun e => e.1)) :=
    (List.perm_insertionSort leKeyed (keyedEntries g)).map _
  exact hperm.nodup_iff.mpr (keyedKeys_nodup hv)

lemma lookupEntry_at_index {g : GlyphMap} (hv : validMap g)
    {i : Nat} (hi : i < (glyphs_in_order g).length)
    (hi' : i < (orderedPacks g).length) :
    lookupEntry g ((glyphs_in_order g).get ⟨i, hi⟩) =
      some ((orderedPacks g).get ⟨i, hi'⟩) := by
  have hmap := glyphs_in_order_resolves hv
  have h1 : ((glyphs_in_order g).map (lookupEntry g))[i]? =
      ((orderedPacks g).map some)[i]? := by rw [hmap]
  rw [List.getElem?_map, List.getElem?_map] at h1
  rw [List.getElem?_eq_getElem hi, List.getElem?_eq_getElem hi'] at h1
  simpa using h1

/-! ## Lemmas: the 8193-glyph map (one glyph past the wrap-free range) -/

lemma enumFrom_map_range' {α : Type} (f : Nat → α) :
    ∀ (n k : Nat), List.enumFrom k ((List.range' k n).map f) =
      (List.range' k n).map (fun i => (i, f i))
  | 0, _ => rfl
  | n + 1, k => by
    rw [List.range'_succ]
    simp only [List.map_cons, List.enumFrom]
    rw [enumFrom_map_range' f n (k + 1)]

lemma entriesTriples_bigMap :
    entriesTriples bigMap = (List.range 8193).map (fun i => (i, colA, i)) := by
  have henum : ((List.range 8193).map mkPack).enum =
      (List.range 8193).map (fun i => (i, mkPack i)) := by
    rw [List.enum_eq_enumFrom, List.range_eq_range', enumFrom_map_range',
      ← List.range_eq_range']
  simp only [entriesTriples, bigMap, List.flatMap_cons, List.flatMap_nil,
    List.append_nil, henum, List.map_map]
  rfl

lemma glyphs_in_order_bigMap :
    glyphs_in_order bigMap = (List.range 8193).map (fun i => (colA, i)) := by
  unfold glyphs_in_order
  have hs : ((List.range 8193).map (fun i => (i, colA, i))).Pairwise leOrder := by
    rw [List.pairwise_map]
    exact (List.pairwise_lt_range 8193).imp (fun h => Nat.le_of_lt h)
  rw [entriesTriples_bigMap, List.Sorted.insertionSort_eq hs, List.map_map]
  rfl

lemma bigMap_valid : validMap bigMap := by
  simp [validMap, bigMap]

lemma lookupEntry_bigMap {i : Nat} (hi : i < 8193) :
    lookupEntry bigMap (colA, i) = some (mkPack i) := by
  have : ((List.range 8193).map mkPack)[i]? = some (mkPack i) := by
    rw [List.getElem?_map, List.getElem?_range hi]
    rfl
  simp [lookupEntry, bigMap, mapLookup, this]

lemma bigEntries_nodup : ((List.range 8193).map (fun i => (colA, i))).Nodup :=
  List.Nodup.map (fun _ _ h => congrArg Prod.snd h) (List.nodup_range 8193)

lemma bigMap_validChars : ∀ i, i < 8193 → Nat.isValidChar ((0xE000 + i) % 65536) := by
  intro i hi
  rcases Nat.lt_or_ge i 8192 with h | h
  · rw [Nat.mod_eq_of_lt (by omega)]
    exact Or.inr ⟨by omega, by omega⟩
  · have hieq : i = 8192 := by omega
    subst hieq
    have hmod : (0xE000 + 8192) % 65536 = 0 := by norm_num
    rw [hmod]
    exact Or.inl (by norm_num)

lemma bigRun_ok : ∃ res,
    runGlyphs trivialDeps bigMap (glyphs_in_order bigMap) 0xE000 1 =
      Except.ok res := by
  have h := @runGlyphs_ok trivialDeps (glyphs_in_order bigMap) bigMap 0xE000 1
    (glyphs_in_order_bigMap ▸ bigEntries_nodup) ?_ (fun _ => rfl) ?_ (by norm_num)
  · cases hr : runGlyphs trivialDeps bigMap (glyphs_in_order bigMap) 0xE000 1 with
    | ok res => exact ⟨res, rfl⟩
    | error msg => rw [hr] at h; exact Bool.noConfusion h
  · intro e he
    rw [glyphs_in_order_bigMap] at he
    obtain ⟨i, hi, rfl⟩ := List.mem_map.mp he
    have hb : (rustTrim dIcon).data.isEmpty = false := by decide
    have hpr : (processGlyph trivialDeps 1000 1000 1000 dIcon).isOk = true := by decide
    exact ⟨mkPack i, lookupEntry_bigMap (List.mem_range.mp hi), hb, hpr⟩
  · intro i hi
    rw [glyphs_in_order_bigMap, List.length_map, List.length_range] at hi
    exact bigMap_validChars i hi

lemma addEmpty_trivial : trivialDeps.addGlyph Glyph.Empty = none := rfl

lemma tableAdds_trivial_ok (img : FontImage) :
    addAll (tableAdds trivialDeps img) = Except.ok () := rfl

lemma generate_ok_construct {m : String} {g : GlyphMap}
    {res : GlyphMap × List (Char × Nat) × List SimpleGlyphRec}
    (hrun : runGlyphs trivialDeps g (glyphs_in_order g) 0xE000 1 =
      Except.ok res) :
    ∃ img : FontImage,
      generate_font_bytes trivialDeps m g = Except.ok (img, res.1) ∧
      img.cmapPairs = res.2.1 := by
  obtain ⟨g', pairs, sgs⟩ := res
  refine ⟨fontTables trivialDeps m pairs sgs, ?_, rfl⟩
  simp only [generate_font_bytes, addEmpty_trivial, hrun, tableAdds_trivial_ok]

lemma bigMap_length : (glyphs_in_order bigMap).length = 8193 := by
  rw [glyphs_in_order_bigMap, List.length_map, List.length_range]

lemma big_entry_at :
    ∀ h : 8192 < (glyphs_in_order bigMap).length,
      (glyphs_in_order bigMap).get ⟨8192, h⟩ = (colA, 8192) := by
  intro h
  have h? : (glyphs_in_order bigMap)[8192]? = some (colA, 8192) := by
    rw [glyphs_in_order_bigMap, List.getElem?_map,
      List.getElem?_range (by omega : (8192 : Nat) < 8193)]
    rfl
  rw [List.getElem?_eq_getElem h] at h?
  rw [List.get_eq_getElem]
  exact Option.some.inj h?

lemma big_cmapScalar :
    cmapScalarAt (generate_font_bytes trivialDeps "icons" bigMap) 8192 = some 0 := by
  obtain ⟨res, hrun⟩ := bigRun_ok
  obtain ⟨img, hgen, hcm⟩ := generate_ok_construct (m := "icons") hrun
  have hp := runGlyphs_pairs _ _ _ _ _ hrun (by norm_num) (by norm_num)
  have hidx := hp.2.2 8192 (by rw [bigMap_length]; omega)
  have hmod : (0xE000 + 8192) % 65536 = 0 := by norm_num
  rw [hmod] at hidx
  have h0 : (Char.ofNat 0).toNat = 0 := by decide
  have hstep : cmapScalarAt (generate_font_bytes trivialDeps "icons" bigMap) 8192 =
      (img.cmapPairs[8192]?).map (fun pr => pr.1.toNat) := by
    rw [hgen]
    rfl
  rw [hstep, hcm, hidx, Option.map_some']
  exact congrArg some h0

lemma big_iconScalars :
    iconScalarsAt (generate_font_bytes trivialDeps "icons" bigMap)
      (colA, 8192) = some [0] := by
  obtain ⟨res, hrun⟩ := bigRun_ok
  obtain ⟨img, hgen, _⟩ := generate_ok_construct (m := "icons") hrun
  have hlt : 8192 < (glyphs_in_order bigMap).length := by rw [bigMap_length]; omega
  have hfin := runGlyphs_final_icons _ _ _ _ _ hrun
    (glyphs_in_order_bigMap ▸ bigEntries_nodup) (by norm_num) 8192 hlt
  rw [big_entry_at hlt] at hfin
  rw [lookupEntry_bigMap (by omega)] at hfin
  have hmod : (0xE000 + 8192) % 65536 = 0 := by norm_num
  rw [hmod, Option.map_some'] at hfin
  have hstep : iconScalarsAt (generate_font_bytes trivialDeps "icons" bigMap)
      (colA, 8192) =
      (lookupEntry res.1 (colA, 8192)).map (fun p => p.icon.data.map Char.toNat) := by
    rw [hgen]
    rfl
  have h0 : (String.mk [Char.ofNat 0]).data.map Char.toNat = [0] := by decide
  rw [hstep, hfin, Option.map_some']
  exact congrArg some h0

/-! ## Lemmas: the curve normalizer -/

lemma except_map_ok {α β : Type} {f : α → β} {r : Except String α} {out : β}
    (h : Except.map f r = Except.ok out) : ∃ a, r = Except.ok a ∧ out = f a := by
  cases r with
  | ok a =>
    refine ⟨a, rfl, ?_⟩
    simpa [Except.map] using h.symm
  | error e => simp [Except.map] at h

lemma isOk_map {α β : Type} (f : α → β) (r : Except String α) :
    (Except.map f r).isOk = r.isOk := by
  cases r <;> rfl

lemma bwqGo_no_cubics
    (toQuads : Point → Point → Point → Point → List (Point × Point)) :
    ∀ (p : List PathEl) (s c : Point) (setp : Bool) (out : List PathEl),
      bwqGo toQuads p s c setp = Except.ok out →
      (∀ el ∈ out, el.isCubic = false) ∧
      List.Sublist (p.filter (fun el => ! el.isCubic)) out := by
  intro p
  induction p with
  | nil =>
    intro s c setp out h
    obtain rfl : ([] : List PathEl) = out := by simpa [bwqGo] using h
    exact ⟨by simp, by simp⟩
  | cons el rest ih =>
    intro s c setp out h
    cases el with
    | MoveTo pt =>
      simp only [bwqGo] at h
      obtain ⟨out2, hout2, rfl⟩ := except_map_ok h
      obtain ⟨h1, h2⟩ := ih _ _ _ _ hout2
      refine ⟨?_, ?_⟩
      · intro e he
        rcases List.mem_cons.mp he with rfl | hm
        · rfl
        · exact h1 e hm
      · rw [List.filter_cons_of_pos (by simp [PathEl.isCubic])]
        exact h2.cons₂ _
    | LineTo pt =>
      cases setp with
      | false => simp [bwqGo] at h
      | true =>
        simp only [bwqGo, if_true] at h
        obtain ⟨out2, hout2, rfl⟩ := except_map_ok h
        obtain ⟨h1, h2⟩ := ih _ _ _ _ hout2
        refine ⟨?_, ?_⟩
        · intro e he
          rcases List.mem_cons.mp he with rfl | hm
          · rfl
          · exact h1 e hm
        · rw [List.filter_cons_of_pos (by simp [PathEl.isCubic])]
          exact h2.cons₂ _
    | QuadTo cc pt =>
      cases setp with
      | false => simp [bwqGo] at h
      | true =>
        simp only [bwqGo, if_true] at h
        obtain ⟨out2, hout2, rfl⟩ := except_map_ok h
        obtain ⟨h1, h2⟩ := ih _ _ _ _ hout2
        refine ⟨?_, ?_⟩
        · intro e he
          rcases List.mem_cons.mp he with rfl | hm
          · rfl
          · exact h1 e hm
        · rw [List.filter_cons_of_pos (by simp [PathEl.isCubic])]
          exact h2.cons₂ _
    | CurveTo c1 c2 pt =>
      cases setp with
      | false => simp [bwqGo] at h
      | true =>
        simp only [bwqGo, if_true] at h
        obtain ⟨out2, hout2, rfl⟩ := except_map_ok h
        obtain ⟨h1, h2⟩ := ih _ _ _ _ hout2
        refine ⟨?_, ?_⟩
        · intro e he
          rcases List.mem_append.mp he with hm | hm
          · obtain ⟨q, _, rfl⟩ := List.mem_map.mp hm
            rfl
          · exact h1 e hm
        · rw [List.filter_cons_of_neg (by simp [PathEl.isCubic])]
          exact h2.trans (List.sublist_append_right _ _)
    | ClosePath =>
      simp only [bwqGo] at h
      obtain ⟨out2, hout2, rfl⟩ := except_map_ok h
      obtain ⟨h1, h2⟩ := ih _ _ _ _ hout2
      refine ⟨?_, ?_⟩
      · intro e he
        rcases List.mem_cons.mp he with rfl | hm
        · rfl
        · exact h1 e hm
      · rw [List.filter_cons_of_pos (by simp [PathEl.isCubic])]
        exact h2.cons₂ _

lemma bwqGo_ok_of_set
    (toQuads : Point → Point → Point → Point → List (Point × Point)) :
    ∀ (p : List PathEl) (s c : Point), (bwqGo toQuads p s c true).isOk = true := by
  intro p
  induction p with
  | nil => intro s c; rfl
  | cons el rest ih =>
    intro s c
    cases el with
    | MoveTo pt => rw [bwqGo, isOk_map]; exact ih _ _
    | LineTo pt => rw [bwqGo, if_pos rfl, isOk_map]; exact ih _ _
    | QuadTo cc pt => rw [bwqGo, if_pos rfl, isOk_map]; exact ih _ _
    | CurveTo c1 c2 pt => rw [bwqGo, if_pos rfl, isOk_map]; exact ih _ _
    | ClosePath => rw [bwqGo, isOk_map]; exact ih _ _

lemma bwqGo_false_isOk
    (toQuads : Point → Point → Point → Point → List (Point × Point)) :
    ∀ (p : List PathEl) (s c : Point),
      (bwqGo toQuads p s c false).isOk = ! hasSegBeforeMove p := by
  intro p
  induction p with
  | nil => intro s c; rfl
  | cons el rest ih =>
    intro s c
    cases el with
    | MoveTo pt =>
      rw [bwqGo, isOk_map, bwqGo_ok_of_set]
      rfl
    | LineTo pt => rfl
    | QuadTo cc pt => rfl
    | CurveTo c1 c2 pt => rfl
    | ClosePath =>
      rw [bwqGo, isOk_map, ih]
      rfl

/-! ## Lemmas: strings and substrings -/

lemma containsSubChars_nil_needle : ∀ hay : List Char, containsSubChars [] hay = true
  | [] => rfl
  | _ :: _ => by simp [containsSubChars, List.isPrefixOf]

lemma containsSubChars_self_append (needle ys : List Char) :
    containsSubChars needle (needle ++ ys) = true := by
  cases needle with
  | nil => exact containsSubChars_nil_needle ys
  | cons n ns =>
    rw [List.cons_append, containsSubChars]
    have hp : (n :: ns).isPrefixOf (n :: (ns ++ ys)) = true :=
      List.isPrefixOf_iff_prefix.mpr (by rw [← List.cons_append]; exact List.prefix_append _ _)
    simp [hp]

lemma containsSubChars_parts (needle xs ys : List Char) :
    containsSubChars needle (xs ++ (needle ++ ys)) = true := by
  induction xs with
  | nil => simpa using containsSubChars_self_append needle ys
  | cons x xs ih =>
    rw [List.cons_append, containsSubChars]
    simp [ih]

lemma containsSub_of_parts (a b c : String) :
    containsSub (a ++ b ++ c) b = true := by
  unfold containsSub
  have h : (a ++ b ++ c).data = a.data ++ (b.data ++ c.data) := by
    simp [String.data_append]
  rw [h]
  exact containsSubChars_parts _ _ _

lemma strStarts_append (a b : String) : strStarts (a ++ b) a = true := by
  unfold strStarts
  rw [String.data_append]
  exact List.isPrefixOf_iff_prefix.mpr (List.prefix_append _ _)

lemma containsSub_mid {n t : String} (e : String) (xs ys : List Char)
    (hn : n.data = xs ++ t.data ++ ys) :
    containsSub (n ++ ": " ++ e) t = true := by
  unfold containsSub
  have hdata : (n ++ ": " ++ e).data =
      xs ++ (t.data ++ (ys ++ ((": " : String).data ++ e.data))) := by
    simp only [String.data_append, hn, List.append_assoc]
  rw [hdata]
  exact containsSubChars_parts _ _ _

lemma splitOncePost_none_iff (pat : List Char) :
    ∀ l : List Char, splitOncePost pat l = none ↔ containsSubChars pat l = false := by
  intro l
  induction l with
  | nil =>
    cases hpe : pat.isEmpty <;> simp [splitOncePost, containsSubChars, hpe]
  | cons c rest ih =>
    by_cases hp : pat.isPrefixOf (c :: rest)
    · simp [splitOncePost, containsSubChars, hp]
    · simp [splitOncePost, containsSubChars, hp, ih]

/-! ## Lemmas: fatal-error messages -/

lemma except_map_error {α β : Type} {f : α → β} {r : Except String α} {msg : String}
    (h : Except.map f r = Except.error msg) : r = Except.error msg := by
  cases r with
  | ok a => simp [Except.map] at h
  | error e =>
    simp only [Except.map] at h
    injection h with h2
    rw [h2]

lemma anonFatal_of_mem {msg : String} (h : msg ∈ anonMessages) : anonFatal msg :=
  Or.inl h

lemma anonFatal_of_msg_eq (p : String) {pre msg e : String}
    (hp : p ∈ anonPrefixes) (hpre : p ++ ": " = pre) (h : msg = pre ++ e) :
    anonFatal msg :=
  Or.inr ⟨p, hp, by rw [h, ← hpre]; exact strStarts_append (p ++ ": ") e⟩

lemma addMessages_name_table {n : String} (hn : n ∈ addMessages) (e : String) :
    ∃ t ∈ tableNames, containsSub (n ++ ": " ++ e) t = true := by
  simp only [addMessages, List.mem_cons, List.not_mem_nil, or_false] at hn
  rcases hn with rfl | rfl | rfl | rfl | rfl | rfl | rfl | rfl | rfl | rfl | rfl
  · exact ⟨"cmap", by decide, containsSub_mid e "failed to build ".data
      " from glyph mappings".data (by decide)⟩
  · exact ⟨"head", by decide, containsSub_mid e "add ".data [] (by decide)⟩
  · exact ⟨"hhea", by decide, containsSub_mid e "add ".data [] (by decide)⟩
  · exact ⟨"maxp", by decide, containsSub_mid e "add ".data [] (by decide)⟩
  · exact ⟨"hmtx", by decide, containsSub_mid e "add ".data [] (by decide)⟩
  · exact ⟨"os/2", by decide, containsSub_mid e "add ".data [] (by decide)⟩
  · exact ⟨"post", by decide, containsSub_mid e "add ".data [] (by decide)⟩
  · exact ⟨"name", by decide, containsSub_mid e "add ".data [] (by decide)⟩
  · exact ⟨"cmap", by decide, containsSub_mid e "add ".data [] (by decide)⟩
  · exact ⟨"glyf", by decide, containsSub_mid e "add ".data [] (by decide)⟩
  · exact ⟨"loca", by decide, containsSub_mid e "add ".data [] (by decide)⟩

lemma svg_to_bez_error {deps : FontDeps} {icon msg : String}
    (h : svg_to_bez deps icon = Except.error msg) :
    ∃ e, msg = "usvg parse failed: " ++ e := by
  cases hp : deps.parseSvgOutline (wrap_svg_if_needed icon) with
  | error e =>
    simp only [svg_to_bez, hp] at h
    injection h with h2
    exact ⟨e, h2.symm⟩
  | ok out => simp [svg_to_bez, hp] at h

lemma bwqGo_error_msgs
    (toQuads : Point → Point → Point → Point → List (Point × Point)) :
    ∀ (p : List PathEl) (s c : Point) (setp : Bool) (msg : String),
      bwqGo toQuads p s c setp = Except.error msg →
      msg ∈ ["LineTo before MoveTo in input path",
        "QuadTo before MoveTo in input path",
        "CurveTo before MoveTo in input path"] := by
  intro p
  induction p with
  | nil => intro s c setp msg h; exact Except.noConfusion h
  | cons el rest ih =>
    intro s c setp msg h
    cases el with
    | MoveTo pt =>
      rw [bwqGo] at h
      exact ih _ _ _ _ (except_map_error h)
    | LineTo pt =>
      cases setp with
      | false =>
        rw [bwqGo, if_neg (by simp)] at h
        injection h with h2
        simp [← h2]
      | true =>
        rw [bwqGo, if_pos rfl] at h
        exact ih _ _ _ _ (except_map_error h)
    | QuadTo cc pt =>
      cases setp with
      | false =>
        rw [bwqGo, if_neg (by simp)] at h
        injection h with h2
        simp [← h2]
      | true =>
        rw [bwqGo, if_pos rfl] at h
        exact ih _ _ _ _ (except_map_error h)
    | CurveTo c1 c2 pt =>
      cases setp with
      | false =>
        rw [bwqGo, if_neg (by simp)] at h
        injection h with h2
        simp [← h2]
      | true =>
        rw [bwqGo, if_pos rfl] at h
        exact ih _ _ _ _ (except_map_error h)
    | ClosePath =>
      rw [bwqGo] at h
      exact ih _ _ _ _ (except_map_error h)

lemma map_svg_error {bb : List PathEl → Rect} {parsed : ParsedSvg}
    {u : Nat} {mw mh : ℚ} {msg : String}
    (h : map_svg_to_em_space bb parsed u mw mh = Except.error msg) :
    msg = "SVG dimensions are too small" ∨ msg = "cannot scale to target box" := by
  simp only [map_svg_to_em_space] at h
  split at h
  case isTrue =>
    injection h with h2
    exact Or.inl h2.symm
  case isFalse =>
    split at h
    · exact Except.noConfusion h
    · split at h
      · injection h with h2
        exact Or.inr h2.symm
      · exact Except.noConfusion h

lemma except_bind_error {α β : Type} {k : α → Except String β}
    {r : Except String α} {msg : String}
    (h : (r >>= k) = Except.error msg) :
    r = Except.error msg ∨ ∃ a, r = Except.ok a ∧ k a = Except.error msg := by
  cases r with
  | error e =>
    left
    have h2 : (Except.error e : Except String β) = Except.error msg := h
    injection h2 with h3
    rw [h3]
  | ok a => exact Or.inr ⟨a, rfl, h⟩

lemma svg_to_quadratics_error {deps : FontDeps} {icon msg : String}
    (h : svg_to_quadratics deps icon = Except.error msg) : anonFatal msg := by
  unfold svg_to_quadratics at h
  rcases except_bind_error h with h1 | ⟨parsed, hb, h1⟩
  · obtain ⟨e, he⟩ := svg_to_bez_error h1
    exact anonFatal_of_msg_eq "usvg parse failed" (by decide) (by decide) he
  · rcases except_bind_error h1 with h2 | ⟨out, hw, h2⟩
    · have hm := bwqGo_error_msgs deps.toQuads parsed.outline _ _ _ _ h2
      exact anonFatal_of_mem
        ((by decide : ∀ x ∈ (["LineTo before MoveTo in input path",
          "QuadTo before MoveTo in input path",
          "CurveTo before MoveTo in input path"] : List String),
          x ∈ anonMessages) _ hm)
    · exact Except.noConfusion h2

lemma processGlyph_error {deps : FontDeps} {u : Nat} {mw mh : ℚ} {icon msg : String}
    (h : processGlyph deps u mw mh icon = Except.error msg) : anonFatal msg := by
  unfold processGlyph at h
  rcases except_bind_error h with h1 | ⟨parsed, hq, h1⟩
  · exact svg_to_quadratics_error h1
  · rcases except_bind_error h1 with h2 | ⟨mapped, hm, h2⟩
    · rcases map_svg_error h2 with h3 | h3
      · rw [h3]; exact anonFatal_of_mem (by decide)
      · rw [h3]; exact anonFatal_of_mem (by decide)
    · cases hf : deps.fromBezpath mapped.outline with
      | error e =>
        rw [hf] at h2
        injection h2 with h3
        exact anonFatal_of_msg_eq "malformed outline" (by decide) (by decide)
          h3.symm
      | ok sg => rw [hf] at h2; exact Except.noConfusion h2

lemma setIcon_variants : ∀ (ps : List PackIcon) (i : Nat) (s : String),
    (setIcon ps i s).map PackIcon.enum_variant = ps.map PackIcon.enum_variant
  | [], _, _ => rfl
  | _ :: _, 0, _ => rfl
  | p :: ps, i + 1, s => by simp [setIcon, setIcon_variants ps i s]

lemma flatten_mapUpdate_variants :
    ∀ (g : GlyphMap) (c : Collection) (i : Nat) (s : String),
      (flatten (mapUpdate g c i s)).map PackIcon.enum_variant =
        (flatten g).map PackIcon.enum_variant
  | [], _, _, _ => rfl
  | (c2, ps) :: rest, c, i, s => by
    by_cases h : c2 = c
    · simp [mapUpdate, h, flatten, List.flatMap_cons, List.map_append,
        setIcon_variants]
    · have hrec := flatten_mapUpdate_variants rest c i s
      simp only [flatten] at hrec
      simp [mapUpdate, h, flatten, List.flatMap_cons, List.map_append, hrec]

lemma mapLookup_mem : ∀ (g : GlyphMap) (c : Collection) (ps : List PackIcon),
    mapLookup g c = some ps → ∃ c2, (c2, ps) ∈ g
  | [], _, _, h => Option.noConfusion h
  | (c2, ps2) :: rest, c, ps, h => by
    by_cases hc : c2 = c
    · rw [mapLookup, if_pos hc] at h
      injection h with h2
      exact ⟨c2, by rw [h2]; exact List.mem_cons_self _ _⟩
    · rw [mapLookup, if_neg hc] at h
      obtain ⟨c3, hm⟩ := mapLookup_mem rest c ps h
      exact ⟨c3, List.mem_cons_of_mem _ hm⟩

lemma mem_flatten_of_lookup {g : GlyphMap} {e : Collection × Nat} {p : PackIcon}
    (h : lookupEntry g e = some p) : p ∈ flatten g := by
  unfold lookupEntry at h
  cases hl : mapLookup g e.1 with
  | none => rw [hl] at h; exact Option.noConfusion h
  | some ps =>
    rw [hl] at h
    simp only [Option.bind] at h
    obtain ⟨c2, hm⟩ := mapLookup_mem g e.1 ps hl
    exact List.mem_flatMap.mpr ⟨(c2, ps), hm, List.getElem?_mem h⟩

lemma runGlyphs_error_msgs {deps : FontDeps} :
    ∀ (entries : List (Collection × Nat)) (g : GlyphMap) (cp gid : Nat)
      (msg : String),
      runGlyphs deps g entries cp gid = Except.error msg →
      (∃ e ∈ entries,
        msg = "glyph order mismatch for collection '" ++ e.1.name ++ "'") ∨
      (∃ v ∈ (flatten g).map PackIcon.enum_variant,
        msg = v ++ " svg should not be empty") ∨
      anonFatal msg := by
  intro entries
  induction entries with
  | nil => intro g cp gid msg h; simp [runGlyphs] at h
  | cons e rest ih =>
    intro g cp gid msg h
    cases hpk : lookupEntry g e with
    | none =>
      simp only [runGlyphs, hpk] at h
      injection h with h2
      exact Or.inl ⟨e, List.mem_cons_self _ _, h2.symm⟩
    | some pack =>
      by_cases hb : (rustTrim pack.icon).data.isEmpty
      · simp only [runGlyphs, hpk, hb, if_true] at h
        injection h with h2
        refine Or.inr (Or.inl ⟨pack.enum_variant, ?_, h2.symm⟩)
        exact List.mem_map_of_mem _ (mem_flatten_of_lookup hpk)
      · cases hpg : processGlyph deps 1000 1000 1000 pack.icon with
        | error m2 =>
          simp only [runGlyphs, hpk, hb, hpg, Bool.false_eq_true,
            if_false] at h
          injection h with h2
          rw [← h2]
          exact Or.inr (Or.inr (processGlyph_error hpg))
        | ok sg =>
          cases hag : deps.addGlyph (Glyph.Simple sg) with
          | some e2 =>
            simp only [runGlyphs, hpk, hb, hpg, hag, Bool.false_eq_true,
              if_false] at h
            injection h with h2
            exact Or.inr (Or.inr
              (anonFatal_of_msg_eq "add glyph" (by decide) (by decide) h2.symm))
          | none =>
            cases hch : charFromU32 cp with
            | none =>
              simp only [runGlyphs, hpk, hb, hpg, hag, hch, Bool.false_eq_true,
                if_false] at h
              injection h with h2
              rw [← h2]
              exact Or.inr (Or.inr (anonFatal_of_mem (by decide)))
            | some ch =>
              cases hr : runGlyphs deps (mapUpdate g e.1 e.2 (String.mk [ch]))
                  rest ((cp + 1) % 65536) ((gid + 1) % 65536) with
              | error m2 =>
                simp only [runGlyphs, hpk, hb, hpg, hag, hch, hr,
                  Bool.false_eq_true, if_false] at h
                injection h with h2
                subst h2
                rcases ih _ _ _ _ hr with h1 | h1 | h1
                · obtain ⟨e2, he2, hm⟩ := h1
                  exact Or.inl ⟨e2, List.mem_cons_of_mem _ he2, hm⟩
                · obtain ⟨v, hv, hm⟩ := h1
                  rw [flatten_mapUpdate_variants] at hv
                  exact Or.inr (Or.inl ⟨v, hv, hm⟩)
                · exact Or.inr (Or.inr h1)
              | ok res =>
                obtain ⟨g2, pairs, sgs⟩ := res
                simp [runGlyphs, hpk, hb, hpg, hag, hch, hr] at h

lemma glyphs_in_order_key_mem {g : GlyphMap} {e : Collection × Nat}
    (h : e ∈ glyphs_in_order g) : e.1 ∈ g.map Prod.fst := by
  rw [glyphs_in_order_eq] at h
  obtain ⟨ke, hk, rfl⟩ := List.mem_map.mp h
  exact key_mem_of_mem_keyedEntries (mem_sortedKeyed.mp hk)

/-! ## The claims -/

/-- C3: for every input outline accepted by the curve normalizer
(`bezpath_with_quadratics`), the output contains only moveto, lineto,
quadratic-curve-to and close-path commands — never a cubic — and every
non-cubic input command is passed through unchanged, in order (the
non-cubic input commands form a subsequence of the output). -/
theorem normalizer_output_quadratic_only
    (toQuads : Point → Point → Point → Point → List (Point × Point))
    (p out : List PathEl)
    (h : bezpath_with_quadratics toQuads p = Except.ok out) :
    (∀ el ∈ out, el.isCubic = false) ∧
    List.Sublist (p.filter (fun el => ! el.isCubic)) out :=
  bwqGo_no_cubics toQuads p _ _ _ out h

theorem normalizer_output_quadratic_only_witness :
    bezpath_with_quadratics twoQuads mixedPath = Except.ok mixedOut ∧
    ((∀ el ∈ mixedOut, el.isCubic = false) ∧
      List.Sublist (mixedPath.filter (fun el => ! el.isCubic)) mixedOut) :=
  ⟨by decide, normalizer_output_quadratic_only twoQuads mixedPath mixedOut (by decide)⟩

/-- C4 (amended): the normalizer aborts exactly when a lineto, quadratic
or cubic command precedes the first moveto; a close-path before any
moveto is passed through without the check. -/
theorem normalizer_assert_iff
    (toQuads : Point → Point → Point → Point → List (Point × Point))
    (p : List PathEl) :
    (bezpath_with_quadratics toQuads p).isOk = ! hasSegBeforeMove p :=
  bwqGo_false_isOk toQuads p _ _

/-- C4 counterexample: a close-path preceding the first moveto — a
"drawing command before an initial moveto" in the claim's wording — does
not abort: the normalizer returns it unchanged. -/
theorem closepath_before_moveto_not_fatal :
    bezpath_with_quadratics (fun _ _ _ _ => []) [PathEl.ClosePath] =
      Except.ok [PathEl.ClosePath] := by decide

/-- C9: synthesis is deterministic — two runs of `generate_font_bytes`
on equal module names and equal glyph maps produce identical results
(the embedding is a pure function of its arguments: the source reads no
clock or randomness). -/
theorem generate_font_bytes_deterministic (deps : FontDeps)
    (m1 m2 : String) (g1 g2 : GlyphMap) (hm : m1 = m2) (hg : g1 = g2) :
    generate_font_bytes deps m1 g1 = generate_font_bytes deps m2 g2 := by
  rw [hm, hg]

theorem generate_font_bytes_deterministic_witness :
    ("icons" : String) = "icons" ∧ dupMapA = dupMapA ∧
    generate_font_bytes trivialDeps "icons" dupMapA =
      generate_font_bytes trivialDeps "icons" dupMapA :=
  ⟨rfl, rfl,
    generate_font_bytes_deterministic trivialDeps "icons" "icons"
      dupMapA dupMapA rfl rfl⟩

/-- C10: `glyphs_in_order` breaks ties in `order` by bucket iteration
order and then by index — two entries whose triples appear in that order
with non-decreasing `order` keep their relative order in the output
(stability) — and consequently, for duplicate `order` values the
codepoint assignment depends on which bucket each glyph is stored under:
storing the same two order-7 glyphs as `{a: [P], b: [Q]}` gives `P`
codepoint U+E000, while `{a: [Q], b: [P]}` gives `P` codepoint U+E001. -/
theorem glyphs_in_order_stable_tie_break :
    (∀ (g : GlyphMap) (a b : Nat × Collection × Nat),
      List.Sublist [a, b] (entriesTriples g) → a.1 ≤ b.1 →
      List.Sublist [(a.2.1, a.2.2), (b.2.1, b.2.2)] (glyphs_in_order g)) ∧
    List.Perm (flatten dupMapA) (flatten dupMapB) ∧
    iconScalarsAt (generate_font_bytes trivialDeps "icons" dupMapA) (colA, 0) =
      some [0xE000] ∧
    iconScalarsAt (generate_font_bytes trivialDeps "icons" dupMapB) (colB, 0) =
      some [0xE001] := by
  refine ⟨?_, by decide, by decide, by decide⟩
  intro g a b hsub hab
  have h1 : List.Sublist [a, b] ((entriesTriples g).insertionSort leOrder) :=
    List.pair_sublist_insertionSort hab hsub
  have h2 := h1.map (fun t : Nat × Collection × Nat => (t.2.1, t.2.2))
  simpa [glyphs_in_order] using h2

theorem glyphs_in_order_stable_tie_break_witness :
    List.Sublist [((7 : Nat), colA, (0 : Nat)), ((7 : Nat), colB, (0 : Nat))]
      (entriesTriples dupMapA) ∧
    List.Sublist [(colA, (0 : Nat)), (colB, (0 : Nat))] (glyphs_in_order dupMapA) :=
  ⟨by decide,
    glyphs_in_order_stable_tie_break.1 dupMapA (7, colA, 0) (7, colB, 0)
      (by decide) (by decide)⟩

/-- C5: `map_svg_to_em_space` aborts with "SVG dimensions are too small"
whenever the outline's bounding box has width or height ≤ 1e-6 — the
glyph is never silently accepted — and in the no-view-box branch a scale
≤ 1e-6 aborts with "cannot scale to target box" (in the exact rational
model every value is finite, so the `is_finite` half of that assertion
always holds). -/
theorem em_space_rejects_degenerate
    (bounding_box : List PathEl → Rect) (parsed : ParsedSvg)
    (u : Nat) (mw mh : ℚ) :
    (((bounding_box parsed.outline).width ≤ MIN_DIM ∨
        (bounding_box parsed.outline).height ≤ MIN_DIM) →
      map_svg_to_em_space bounding_box parsed u mw mh =
        Except.error "SVG dimensions are too small") ∧
    ((bounding_box parsed.outline).width > MIN_DIM →
      (bounding_box parsed.outline).height > MIN_DIM →
      parsed.view_box.filter
        (fun r => decide (r.width > MIN_DIM ∧ r.height > MIN_DIM)) = none →
      min (mw / (bounding_box parsed.outline).width)
          (mh / (bounding_box parsed.outline).height) ≤ MIN_DIM →
      map_svg_to_em_space bounding_box parsed u mw mh =
        Except.error "cannot scale to target box") := by
  constructor
  · intro hdeg
    simp only [map_svg_to_em_space]
    rw [if_pos]
    intro hok
    rcases hdeg with hle | hle
    · exact absurd hok.1 (not_lt.mpr hle)
    · exact absurd hok.2 (not_lt.mpr hle)
  · intro hw hh hvb hscale
    simp only [map_svg_to_em_space]
    rw [if_neg (by push_neg; exact ⟨hw, hh⟩), hvb]
    rw [if_pos (not_lt.mpr hscale)]

theorem em_space_rejects_degenerate_witness :
    (Rect.width ⟨0, 0, 0, 0⟩ ≤ MIN_DIM ∨ Rect.height ⟨0, 0, 0, 0⟩ ≤ MIN_DIM) ∧
    map_svg_to_em_space (fun _ => ⟨0, 0, 0, 0⟩) ⟨[], none⟩ 1000 1000 1000 =
      Except.error "SVG dimensions are too small" :=
  ⟨by decide,
    (em_space_rejects_degenerate (fun _ => ⟨0, 0, 0, 0⟩) ⟨[], none⟩
      1000 1000 1000).1 (by decide)⟩

/-- C6: the bare path `"M0 0 L24 0 L24 24 Z"` is wrapped into the
default document with a 24×24 view box, that view box is extracted, and
em-space mapping takes the view-box branch with uniform scale 1000/24
and a vertical flip: the 24×24 triangle outline maps to `emOutline24`,
whose bounding box is exactly [0,1000]×[0,1000]. -/
theorem bare_path_default_view_box_example :
    wrap_svg_if_needed dIcon = wrappedDIcon ∧
    extract_view_box wrappedDIcon = some ⟨0, 0, 24, 24⟩ ∧
    map_svg_to_em_space pointsBBox ⟨outline24, extract_view_box wrappedDIcon⟩
        1000 1000 1000 =
      Except.ok ⟨emOutline24, some ⟨0, 0, 24, 24⟩⟩ ∧
    pointsBBox emOutline24 = ⟨0, 0, 1000, 1000⟩ ∧
    (1000 : ℚ) / 24 * 24 = 1000 := by
  refine ⟨by decide, by decide, by decide, by decide, by decide⟩

lemma option_bind_some {α β : Type} {k : α → Option β} {r : Option α} {out : β}
    (h : (r >>= k) = some out) : ∃ a, r = some a ∧ k a = some out := by
  cases r with
  | none =>
    have h2 : (none : Option β) = some out := h
    exact Option.noConfusion h2
  | some a => exact ⟨a, rfl, h⟩

/-- C7 (amended): `extract_view_box` is total — absence of the `viewBox`
attribute yields `none` and parsed width or height `≤ 0` yields `none`,
never an abort — and a `some` result means exactly that the parsed width
and height passed the IEEE guard `w <= 0.0 || h <= 0.0 == false`: for
finite values that is strict positivity, but a NaN width or height also
passes the guard, so a returned view box need not have strictly positive
dimensions. -/
theorem view_box_soft_validation :
    (∀ (s : String) (r : RectF), extract_view_box64 s = some r →
      ∃ x y w h rest, viewBoxValues64 s = some (x :: y :: w :: h :: rest) ∧
        F64.le w (F64.finite 0) = false ∧ F64.le h (F64.finite 0) = false ∧
        r = ⟨x, y, F64.add x w, F64.add y h⟩) ∧
    (∀ q : ℚ, F64.le (F64.finite q) (F64.finite 0) = false ↔ 0 < q) ∧
    (∀ s : String, containsSub s "viewBox=" = false →
      extract_view_box64 s = none) ∧
    (∀ (s : String) (x y w h : F64) (rest : List F64),
      viewBoxValues64 s = some (x :: y :: w :: h :: rest) →
      (F64.le w (F64.finite 0) || F64.le h (F64.finite 0)) = true →
      extract_view_box64 s = none) := by
  refine ⟨?_, ?_, ?_, ?_⟩
  · intro s r h
    unfold extract_view_box64 at h
    obtain ⟨values, hv, h1⟩ := option_bind_some h
    match values, h1 with
    | [], h1 => exact Option.noConfusion h1
    | [_], h1 => exact Option.noConfusion h1
    | [_, _], h1 => exact Option.noConfusion h1
    | [_, _, _], h1 => exact Option.noConfusion h1
    | x :: y :: w :: ht :: rest, h1 =>
      have h1' : (if F64.le w (F64.finite 0) || F64.le ht (F64.finite 0) then
          none else some (⟨x, y, F64.add x w, F64.add y ht⟩ : RectF)) =
          some r := h1
      cases hc : F64.le w (F64.finite 0) || F64.le ht (F64.finite 0) with
      | true =>
        rw [if_pos hc] at h1'
        exact Option.noConfusion h1'
      | false =>
        rw [if_neg (by rw [hc]; exact Bool.false_ne_true)] at h1'
        injection h1' with h2
        obtain ⟨hw, hh⟩ := Bool.or_eq_false_iff.mp hc
        exact ⟨x, y, w, ht, rest, hv, hw, hh, h2.symm⟩
  · intro q
    show decide (q ≤ 0) = false ↔ 0 < q
    rw [decide_eq_false_iff_not, not_le]
  · intro s hns
    have hsplit : splitOncePost "viewBox=".data s.data = none :=
      (splitOncePost_none_iff _ _).mpr hns
    simp [extract_view_box64, viewBoxValues64, hsplit]
  · intro s x y w ht rest hval hle
    unfold extract_view_box64
    rw [hval]
    show (if F64.le w (F64.finite 0) || F64.le ht (F64.finite 0) then none
      else some (⟨x, y, F64.add x w, F64.add y ht⟩ : RectF)) = none
    rw [if_pos hle]

theorem view_box_soft_validation_witness :
    extract_view_box64 wrappedDIcon =
      some ⟨F64.finite 0, F64.finite 0, F64.finite 24, F64.finite 24⟩ ∧
    ∃ x y w h rest,
      viewBoxValues64 wrappedDIcon = some (x :: y :: w :: h :: rest) ∧
      F64.le w (F64.finite 0) = false ∧ F64.le h (F64.finite 0) = false ∧
      (⟨F64.finite 0, F64.finite 0, F64.finite 24, F64.finite 24⟩ : RectF) =
        ⟨x, y, F64.add x w, F64.add y h⟩ :=
  ⟨by decide, view_box_soft_validation.1 wrappedDIcon
    ⟨F64.finite 0, F64.finite 0, F64.finite 24, F64.finite 24⟩ (by decide)⟩

/-- C7 counterexample: on a `viewBox` whose width literal is `nan` —
which Rust's `f64` parser accepts — the guard `w <= 0.0 || h <= 0.0` is
false (IEEE comparisons with NaN are false), so `extract_view_box`
returns `Some` of a rect whose width is NaN — not strictly positive —
refuting the claim that a returned view box always has strictly positive
width and height. -/
theorem view_box_nan_width :
    extract_view_box64 nanSvg =
      some ⟨F64.finite 0, F64.finite 0, F64.nan, F64.finite 1⟩ ∧
    RectF.width ⟨F64.finite 0, F64.finite 0, F64.nan, F64.finite 1⟩ =
      F64.nan ∧
    F64.lt (F64.finite 0) F64.nan = false :=
  ⟨by decide, by decide, by decide⟩

/-- C1 (amended): for glyph maps with pairwise-distinct global `order`
values and at most 8192 glyphs (so the 16-bit codepoint counter cannot
wrap), the processed sequence is the glyphs sorted strictly by `order`,
independent of which collection bucket each glyph is stored under; the
loop resolves the canonical key sequence exactly to that sorted
sequence; and on success the cmap pairs assign codepoint `0xE000 + i`
and glyph-id `i + 1` to sequence position `i`, so the codepoint set is
exactly `{0xE000, …, 0xE000 + N - 1}`, one strictly increasing pair per
glyph. -/
theorem glyph_order_assignment
    (deps : FontDeps) (m : String) (g1 g2 : GlyphMap)
    (hv1 : validMap g1)
    (hperm : List.Perm (flatten g1) (flatten g2))
    (hdist : ((flatten g1).map PackIcon.order).Nodup)
    (hcap : (flatten g1).length ≤ 8192) :
    orderedPacks g1 = orderedPacks g2 ∧
    (orderedPacks g1).Pairwise (fun a b => a.order < b.order) ∧
    (glyphs_in_order g1).map (lookupEntry g1) = (orderedPacks g1).map some ∧
    ∀ out, generate_font_bytes deps m g1 = Except.ok out →
      out.1.cmapPairs.map (fun pr => pr.1.toNat) =
        (List.range (flatten g1).length).map (fun i => 0xE000 + i) ∧
      out.1.cmapPairs.map Prod.snd =
        (List.range (flatten g1).length).map (fun i => i + 1) := by
  refine ⟨orderedPacks_eq_of_perm hperm hdist, orderedPacks_strict hdist,
    glyphs_in_order_resolves hv1, ?_⟩
  intro out hok
  obtain ⟨res, hrun, hcm, hg'⟩ := generate_ok_elim hok
  have hp := runGlyphs_pairs _ _ _ _ _ hrun (by norm_num) (by norm_num)
  have hlen : res.2.1.length = (flatten g1).length := by
    rw [hp.1, glyphs_in_order_length]
  constructor
  · refine List.ext_getElem? (fun i => ?_)
    rw [hcm, List.getElem?_map, List.getElem?_map]
    by_cases hi : i < (flatten g1).length
    · rw [hp.2.2 i (by rw [glyphs_in_order_length]; exact hi),
        List.getElem?_range hi, Option.map_some', Option.map_some']
      have hmod : (0xE000 + i) % 65536 = 0xE000 + i :=
        Nat.mod_eq_of_lt (by omega)
      rw [hmod]
      rw [char_toNat_ofNat (Or.inr ⟨by omega, by omega⟩)]
    · rw [List.getElem?_eq_none (by rw [hlen]; omega),
        List.getElem?_eq_none (by rw [List.length_range]; omega)]
      rfl
  · refine List.ext_getElem? (fun i => ?_)
    rw [hcm, List.getElem?_map, List.getElem?_map]
    by_cases hi : i < (flatten g1).length
    · rw [hp.2.2 i (by rw [glyphs_in_order_length]; exact hi),
        List.getElem?_range hi, Option.map_some', Option.map_some']
      refine congrArg some ?_
      show (1 + i) % 65536 = i + 1
      omega
    · rw [List.getElem?_eq_none (by rw [hlen]; omega),
        List.getElem?_eq_none (by rw [List.length_range]; omega)]
      rfl

theorem glyph_order_assignment_witness :
    validMap witMapA ∧ List.Perm (flatten witMapA) (flatten witMapB) ∧
    ((flatten witMapA).map PackIcon.order).Nodup ∧
    (flatten witMapA).length ≤ 8192 ∧
    orderedPacks witMapA = orderedPacks witMapB :=
  ⟨by decide, by decide, by decide, by decide,
    (glyph_order_assignment trivialDeps "icons" witMapA witMapB (by decide)
      (by decide) (by decide) (by decide)).1⟩

/-- C1 counterexample: on a map of 8193 glyphs with distinct orders
`0, …, 8192` (one glyph beyond the wrap-free range of the `u16`
codepoint counter), the run still succeeds, but the glyph at sequence
position 8192 receives codepoint 0 — the counter has wrapped — not
`0xE000 + 8192` as the claim states for every `N`. -/
theorem codepoint_wraps_at_8193 :
    cmapScalarAt (generate_font_bytes trivialDeps "icons" bigMap) 8192 = some 0 ∧
    (0 : Nat) ≠ 0xE000 + 8192 :=
  ⟨big_cmapScalar, by norm_num⟩

/-- C2 (amended): after a successful `generate_font_bytes` run on a
valid map, the `icon` field of the glyph processed at sequence position
`i` holds exactly one Unicode scalar, namely `(0xE000 + i) % 2^16`
(equal to `0xE000 + i` whenever the map has at most 8192 glyphs). -/
theorem processed_icons_single_scalar
    (deps : FontDeps) (m : String) (g : GlyphMap) (hv : validMap g)
    (hok : (generate_font_bytes deps m g).isOk = true)
    (i : Nat) (hi : i < (glyphs_in_order g).length) :
    iconScalarsAt (generate_font_bytes deps m g)
        ((glyphs_in_order g).get ⟨i, hi⟩) =
      some [(0xE000 + i) % 65536] := by
  cases hgen : generate_font_bytes deps m g with
  | error msg => rw [hgen] at hok; exact Bool.noConfusion hok
  | ok out =>
    obtain ⟨res, hrun, hcm, hg'⟩ := generate_ok_elim hgen
    have hfin := runGlyphs_final_icons _ _ _ _ _ hrun (glyphs_in_order_nodup hv)
      (by norm_num) i hi
    have hi2 : i < (orderedPacks g).length := by
      rw [orderedPacks, List.length_insertionSort, ← glyphs_in_order_length]
      exact hi
    rw [lookupEntry_at_index hv hi hi2, Option.map_some'] at hfin
    have hvalid := runGlyphs_validChars _ _ _ _ _ hrun (by norm_num) i hi
    have hout2 : lookupEntry out.2 ((glyphs_in_order g).get ⟨i, hi⟩) =
        some { (orderedPacks g).get ⟨i, hi2⟩ with
          icon := String.mk [Char.ofNat ((0xE000 + i) % 65536)] } := by
      rw [hg']
      exact hfin
    simp only [iconScalarsAt, hgen, hout2, Option.map_some']
    have hdata : (String.mk [Char.ofNat ((0xE000 + i) % 65536)]).data.map
        Char.toNat = [(0xE000 + i) % 65536] := by
      show [(Char.ofNat ((0xE000 + i) % 65536)).toNat] = _
      rw [char_toNat_ofNat hvalid]
    exact congrArg some hdata

theorem processed_icons_single_scalar_witness :
    iconScalarsAt (generate_font_bytes trivialDeps "icons" witMapA)
        ((glyphs_in_order witMapA).get ⟨0, by decide⟩) =
      some [(0xE000 + 0) % 65536] :=
  processed_icons_single_scalar trivialDeps "icons" witMapA (by decide)
    (by decide) 0 (by decide)

/-- C2 counterexample: on the 8193-glyph map the run succeeds and the
glyph stored at `(colA, 8192)` — processed at sequence position 8192 —
ends with its `icon` field holding the single scalar 0, not
`0xE000 + 8192` as the claim states. -/
theorem icon_scalar_wraps_at_8193 :
    iconScalarsAt (generate_font_bytes trivialDeps "icons" bigMap)
        (colA, 8192) = some [0] ∧
    (0 : Nat) ≠ 0xE000 + 8192 :=
  ⟨big_iconScalars, by norm_num⟩

/-- C8 (amended): every fatal error of `generate_font_bytes` either
names a collection of the map (the order-mismatch panic), or names a
glyph identifier of the map (the blank-source panic), or names the table
it was building or adding (the `Cmap::from_mappings` failure and the ten
`add_table` failures, whose `expect` messages each contain the table's
name), or is anonymous — one of the fixed `assert!`-style messages, or
an `expect` message prefixed `usvg parse failed` / `malformed outline` /
`.notdef` / `add glyph` — naming neither a glyph, a collection, nor a
table. -/
theorem fatal_error_naming (deps : FontDeps) (m : String) (g : GlyphMap)
    (msg : String) (h : generate_font_bytes deps m g = Except.error msg) :
    (∃ c ∈ g.map Prod.fst, containsSub msg c.name = true) ∨
    (∃ p ∈ flatten g, containsSub msg p.enum_variant = true) ∨
    (∃ t ∈ tableNames, containsSub msg t = true) ∨
    anonFatal msg := by
  rcases generate_error_elim h with hrun | ⟨e, he⟩ | ⟨n, hn, e, he⟩
  · rcases runGlyphs_error_msgs _ _ _ _ _ hrun with h1 | h1 | h1
    · obtain ⟨e, he, hm⟩ := h1
      refine Or.inl ⟨e.1, glyphs_in_order_key_mem he, ?_⟩
      rw [hm]
      exact containsSub_of_parts "glyph order mismatch for collection '"
        e.1.name "'"
    · obtain ⟨v, hv, hm⟩ := h1
      obtain ⟨p, hp, rfl⟩ := List.mem_map.mp hv
      refine Or.inr (Or.inl ⟨p, hp, ?_⟩)
      rw [hm]
      have : p.enum_variant ++ " svg should not be empty" =
          "" ++ p.enum_variant ++ " svg should not be empty" := by
        simp
      rw [this]
      exact containsSub_of_parts "" p.enum_variant " svg should not be empty"
    · exact Or.inr (Or.inr (Or.inr h1))
  · exact Or.inr (Or.inr (Or.inr
      (anonFatal_of_msg_eq ".notdef" (by decide) (by decide) he)))
  · refine Or.inr (Or.inr (Or.inl ?_))
    rw [he]
    exact addMessages_name_table hn e

theorem fatal_error_naming_witness :
    generate_font_bytes trivialDeps "icons" blankMap =
      Except.error "Home svg should not be empty" ∧
    ((∃ c ∈ blankMap.map Prod.fst,
        containsSub "Home svg should not be empty" c.name = true) ∨
      (∃ p ∈ flatten blankMap,
        containsSub "Home svg should not be empty" p.enum_variant = true) ∨
      (∃ t ∈ tableNames,
        containsSub "Home svg should not be empty" t = true) ∨
      anonFatal "Home svg should not be empty") :=
  ⟨by decide,
    fatal_error_naming trivialDeps "icons" blankMap
      "Home svg should not be empty" (by decide)⟩

/-- C8 counterexample: a document parse failure aborts the build with
the message "usvg parse failed: " followed by the parser error's debug
text, which names neither the failing glyph's identifier (`Home`), nor
its collection (`mdi`), nor any of the ten font tables — contradicting
the claim that every fatal error names the offending glyph, collection,
or table. -/
theorem parse_failure_names_nothing :
    generate_font_bytes failParseDeps "icons" badParseMap =
      Except.error "usvg parse failed: ParsingFailed" ∧
    containsSub "usvg parse failed: ParsingFailed" "Home" = false ∧
    containsSub "usvg parse failed: ParsingFailed" "mdi" = false ∧
    (∀ t ∈ tableNames,
      containsSub "usvg parse failed: ParsingFailed" t = false) := by
  exact ⟨by decide, by decide, by decide, by decide⟩

end IconFont
